import Mathlib

/-!
Verification development for the chain-state cache core (coins.cpp, undo.h):
a shallow embedding of CCoins, the CCoinsViewCache layered cache over an
abstract base view, the sidechain / sidechain-event bookkeeping driven by
certificates, and the CBlockUndo serialization format, together with proofs
of the documented properties.

Conventions of the embedding:
* 256-bit digests (txids, sidechain ids, anchor roots, hashes) are Nat,
  with 0 playing the role of the null uint256.
* C++ int / int64_t quantities (heights, epochs, amounts, quality) are Int.
  The properties proved here are arithmetic identities that hold in the
  int64 range, so unbounded Int is used.
* bool-returning C++ functions that fill an out-parameter are modelled as
  functions returning Option; functions that can fail an assert or return
  an error are modelled with Option where none is the failure.
* The mutable cache maps are modelled as association lists keyed by Nat or
  Int; the C++ std::map / hash-map key uniqueness is carried as an explicit
  hypothesis where a proof needs it.
* The cachedCoinsUsage accounting counter (an accounting value, not state)
  is omitted.
-/

namespace ZenCoins

/-! ### Association-map helpers shared by all cache maps -/

def mlook {κ α : Type} [DecidableEq κ] : List (κ × α) → κ → Option α
  | [], _ => none
  | (k, v) :: t, j => if k = j then some v else mlook t j

def mset {κ α : Type} [DecidableEq κ] : List (κ × α) → κ → α → List (κ × α)
  | [], k, v => [(k, v)]
  | (k0, v0) :: t, k, v => if k0 = k then (k, v) :: t else (k0, v0) :: mset t k v

def merase {κ α : Type} [DecidableEq κ] (m : List (κ × α)) (k : κ) : List (κ × α) :=
  m.filter (fun p => p.1 ≠ k)

/-! ### Set-of-ids helpers (std::set of uint256, modelled as a List Nat) -/

def sInsert (l : List Nat) (k : Nat) : List Nat :=
  if k ∈ l then l else l ++ [k]

def sErase (l : List Nat) (k : Nat) : List Nat :=
  l.filter (fun x => x ≠ k)

/-! ### CTxOut and CCoins (coins.cpp lines 21-193) -/

/-- A non-null transaction output: an amount and a script.
Modelled from the spec: the CTxOut class itself is not in the sources;
the spec describes an output as (value, script) with null as a canonical
empty output, which the embedding renders as an Option. -/
structure COutPayload where
  nValue : Int
  scriptPubKey : List Nat
deriving DecidableEq, Repr

/-- A CTxOut slot: none is the null (spent / cleared) output. -/
abbrev CTxOutM := Option COutPayload

/-- BWT_POS_UNSET sentinel for nFirstBwtPos of non-certificate coins.
Modelled from the spec: the constant is declared outside the sources;
it is the sentinel value distinct from every real output position. -/
def BWT_POS_UNSET : Int := -1

/-- CCoins: the per-transaction bundle of unspent outputs plus provenance. -/
structure CCoins where
  fCoinBase : Bool
  vout : List CTxOutM
  nHeight : Int
  nVersion : Int
  nFirstBwtPos : Int
  nBwtMaturityHeight : Int
deriving DecidableEq, Repr

/-- CCoins::Clear: the default-constructed / cleared coins object. -/
def CCoins.ClearedCoins : CCoins :=
  { fCoinBase := false, vout := [], nHeight := 0, nVersion := 0,
    nFirstBwtPos := BWT_POS_UNSET, nBwtMaturityHeight := 0 }

/-- The while loop of CCoins::Cleanup: pop trailing null outputs. -/
def cleanupVout (v : List CTxOutM) : List CTxOutM :=
  (v.reverse.dropWhile (fun o => o.isNone)).reverse

/-- CCoins::Cleanup (coins.cpp 81-87): remove trailing null outputs
(the capacity-shrinking step has no observable content here). -/
def CCoins.Cleanup (c : CCoins) : CCoins :=
  { c with vout := cleanupVout c.vout }

/-- CCoins::IsPruned (coins.cpp 162-167): every output is null. -/
def CCoins.IsPruned (c : CCoins) : Bool :=
  c.vout.all (fun o => o.isNone)

/-- CCoins::IsAvailable (coins.cpp 158-160). -/
def CCoins.IsAvailable (c : CCoins) (nPos : Nat) : Bool :=
  nPos < c.vout.length && (c.vout.getD nPos none).isSome

/-- CCoins::Spend (coins.cpp 148-156): returns the success flag and the
updated coins (the C++ mutates in place and returns bool). -/
def CCoins.Spend (c : CCoins) (nPos : Nat) : Bool × CCoins :=
  if nPos ≥ c.vout.length || (c.vout.getD nPos none).isNone then (false, c)
  else (true, CCoins.Cleanup { c with vout := c.vout.set nPos none })

/-- The state change of CCoins::Spend, ignoring the returned flag. -/
def CCoins.SpendApply (c : CCoins) (nPos : Nat) : CCoins :=
  (c.Spend nPos).2

/-! ### Certificates, sidechains, events, undo data -/

/-- CScCertificate::EPOCH_NULL. Modelled from the spec: the constant is
declared outside the sources; it is the sentinel epoch of a sidechain that
has never had a certificate, distinct from every real epoch (epochs are
non-negative). -/
def EPOCH_NULL : Int := -1

/-- CScCertificate::QUALITY_NULL sentinel, likewise declared outside the
sources. -/
def QUALITY_NULL : Int := 0

/-- The face of a CScCertificate that coins.cpp reads: hash, sidechain id,
epoch, quality, data hash and the total backward-transfer amount
(GetValueOfBackwardTransfers). -/
structure CScCertificate where
  hash : Nat
  scId : Nat
  epochNumber : Int
  quality : Int
  bwtTotalAmount : Int
  dataHash : Nat
deriving DecidableEq, Repr

/-- CSidechain: per-sidechain record. The fields match the set written and
read by coins.cpp (the class itself lives in a header outside the sources;
field names follow the .cpp accesses and the spec). creationData is
flattened into the record. -/
structure CSidechain where
  creationBlockHash : Nat
  creationBlockHeight : Int
  creationTxHash : Nat
  lastTopQualityCertHash : Nat
  lastTopQualityCertReferencedEpoch : Int
  lastTopQualityCertQuality : Int
  lastTopQualityCertBwtAmount : Int
  lastTopQualityCertDataHash : Nat
  pastEpochTopQualityCertDataHash : Nat
  balance : Int
  mImmatureAmounts : List (Int × Int)
  withdrawalEpochLength : Int
  customData : Nat
  constant : Nat
  wCertVk : Nat
  wMbtrVk : Option Nat
  currentState : Nat
deriving DecidableEq, Repr

/-- CSidechain::State values (UNCONFIRMED, ALIVE, CEASED, NOT_APPLICABLE),
stored as a uint8_t in the record. Modelled from the spec: the enum is
declared outside the sources. -/
def ScState.UNCONFIRMED : Nat := 0

def ScState.ALIVE : Nat := 1

def ScState.CEASED : Nat := 2

def ScState.NOT_APPLICABLE : Nat := 3

/-- The default-constructed CSidechain (used by ModifySidechain when
neither the cache nor the base has the id). Modelled from the spec: the
constructor is outside the sources; null hashes, null epoch/quality,
zero balance, empty schedule. -/
def CSidechain.defaultSc : CSidechain :=
  { creationBlockHash := 0, creationBlockHeight := -1, creationTxHash := 0,
    lastTopQualityCertHash := 0, lastTopQualityCertReferencedEpoch := EPOCH_NULL,
    lastTopQualityCertQuality := QUALITY_NULL, lastTopQualityCertBwtAmount := 0,
    lastTopQualityCertDataHash := 0, pastEpochTopQualityCertDataHash := 0,
    balance := 0, mImmatureAmounts := [], withdrawalEpochLength := 0,
    customData := 0, constant := 0, wCertVk := 0, wMbtrVk := none,
    currentState := ScState.UNCONFIRMED }

/-- CSidechain::StartHeightForEpoch. Modelled from the spec: the method is
outside the sources; per the scenarios of the spec (creation at height 200
with epoch length 10 gives epoch 1 starting so that ceasing is at 215 with
margin 5), epoch e starts at creationBlockHeight + e * withdrawalEpochLength. -/
def CSidechain.StartHeightForEpoch (sc : CSidechain) (targetEpoch : Int) : Int :=
  sc.creationBlockHeight + targetEpoch * sc.withdrawalEpochLength

/-- CSidechain::SafeguardMargin. Modelled from the spec: the method is
outside the sources; the spec scenarios use margin 5 for epoch length 10,
the source tree derives it as a fifth of the epoch length. -/
def CSidechain.SafeguardMargin (sc : CSidechain) : Int :=
  sc.withdrawalEpochLength / 5

/-- CSidechainEvents: the sets of sidechain ids maturing / ceasing at one
height (the class is declared outside the sources; the fields are the two
sets coins.cpp reads and writes). -/
structure CSidechainEvents where
  maturingScs : List Nat
  ceasingScs : List Nat
deriving DecidableEq, Repr

/-- CSidechainEvents::IsNull. Modelled from the spec: an event entry is
null when both sets are empty. -/
def CSidechainEvents.IsNull (e : CSidechainEvents) : Bool :=
  e.maturingScs.isEmpty && e.ceasingScs.isEmpty

def CSidechainEvents.emptyEvents : CSidechainEvents :=
  { maturingScs := [], ceasingScs := [] }

/-- CTxInUndo (undo.h 23-93): the spent output plus, when the spend emptied
the coins entry, its provenance. -/
structure CTxInUndo where
  txout : CTxOutM
  fCoinBase : Bool
  nHeight : Int
  nVersion : Int
  nFirstBwtPos : Int
  nBwtMaturityHeight : Int
deriving DecidableEq, Repr

/-- CTxInUndo(txoutIn) with the default provenance arguments. -/
def CTxInUndo.ofTxOut (o : CTxOutM) : CTxInUndo :=
  { txout := o, fCoinBase := false, nHeight := 0, nVersion := 0,
    nFirstBwtPos := BWT_POS_UNSET, nBwtMaturityHeight := 0 }

/-- CSidechainUndoData as used by coins.cpp (the snapshot of undo.h in the
sources carries an older field list; the .cpp accesses are authoritative
for the cache logic). The contentBitMask bits CROSS_EPOCH_CERT_DATA,
ANY_EPOCH_CERT_DATA, MATURED_AMOUNTS, CEASED_CERT_DATA are modelled as
individual Booleans of the bitset. -/
structure CSidechainUndoData where
  contentCrossEpochCertData : Bool
  contentAnyEpochCertData : Bool
  contentMaturedAmounts : Bool
  contentCeasedCertData : Bool
  prevTopCommittedCertHash : Nat
  prevTopCommittedCertReferencedEpoch : Int
  prevTopCommittedCertQuality : Int
  prevTopCommittedCertBwtAmount : Int
  lastTopQualityCertDataHash : Nat
  pastEpochTopQualityCertDataHash : Nat
  appliedMaturedAmount : Int
  ceasedBwts : List CTxInUndo
deriving DecidableEq, Repr

/-- Default-constructed CSidechainUndoData (undo.h 161-164): empty bitmask,
null hashes, null epoch/quality, zero amounts. -/
def CSidechainUndoData.defaultUndo : CSidechainUndoData :=
  { contentCrossEpochCertData := false, contentAnyEpochCertData := false,
    contentMaturedAmounts := false, contentCeasedCertData := false,
    prevTopCommittedCertHash := 0, prevTopCommittedCertReferencedEpoch := EPOCH_NULL,
    prevTopCommittedCertQuality := QUALITY_NULL, prevTopCommittedCertBwtAmount := 0,
    lastTopQualityCertDataHash := 0, pastEpochTopQualityCertDataHash := 0,
    appliedMaturedAmount := 0, ceasedBwts := [] }

/-- The scUndoDatabyScId map of a CBlockUndo, as touched by coins.cpp. -/
structure CBlockUndoSc where
  scUndoDatabyScId : List (Nat × CSidechainUndoData)
deriving DecidableEq, Repr

/-- blockUndo.scUndoDatabyScId[scId] read access: std::map operator[]
returns the present entry or a default-constructed one. -/
def CBlockUndoSc.scUndoGet (bu : CBlockUndoSc) (scId : Nat) : CSidechainUndoData :=
  (mlook bu.scUndoDatabyScId scId).getD CSidechainUndoData.defaultUndo

def CBlockUndoSc.scUndoSet (bu : CBlockUndoSc) (scId : Nat)
    (u : CSidechainUndoData) : CBlockUndoSc :=
  { scUndoDatabyScId := mset bu.scUndoDatabyScId scId u }

/-! ### Cache entries and the CCoinsViewCache state -/

/-- CCoinsCacheEntry flags: DIRTY and FRESH are independent bits. -/
structure CCoinsCacheEntry where
  coins : CCoins
  dirty : Bool
  fresh : Bool
deriving DecidableEq, Repr

/-- CSidechainsCacheEntry::Flags and CSidechainEventsCacheEntry::Flags:
identical single-valued enumerations in the source, shared here. -/
inductive ScCacheFlag where
  | DEFAULT
  | FRESH
  | DIRTY
  | ERASED
deriving DecidableEq, Repr

structure CSidechainsCacheEntry where
  sidechain : CSidechain
  flag : ScCacheFlag
deriving DecidableEq, Repr

structure CSidechainEventsCacheEntry where
  scEvents : CSidechainEvents
  flag : ScCacheFlag
deriving DecidableEq, Repr

/-- ZCIncrementalMerkleTree as the cache stores it: its root plus opaque
contents. -/
structure ZCTree where
  root : Nat
  contents : Nat
deriving DecidableEq, Repr

structure CAnchorsCacheEntry where
  entered : Bool
  tree : ZCTree
  dirty : Bool
deriving DecidableEq, Repr

structure CNullifiersCacheEntry where
  entered : Bool
  dirty : Bool
deriving DecidableEq, Repr

/-- The read face of the base CCoinsView under the cache: bool-plus-out-param
getters become Option-valued functions, GetScIds fills a set. -/
structure CCoinsViewBase where
  getCoins : Nat → Option CCoins
  getSidechain : Nat → Option CSidechain
  getSidechainEvents : Int → Option CSidechainEvents
  getAnchorAt : Nat → Option ZCTree
  getNullifier : Nat → Bool
  getBestBlock : Nat
  getBestAnchor : Nat
  getScIds : List Nat

/-- CCoinsViewCache: the five cache maps over a base view plus the lazily
fetched best block / best anchor (0 plays the null uint256). The
cachedCoinsUsage accounting counter and hasModifier latch carry no
observable state for the properties proved here and are omitted. -/
structure CCoinsViewCache where
  base : CCoinsViewBase
  cacheCoins : List (Nat × CCoinsCacheEntry)
  cacheSidechains : List (Nat × CSidechainsCacheEntry)
  cacheSidechainEvents : List (Int × CSidechainEventsCacheEntry)
  cacheAnchors : List (Nat × CAnchorsCacheEntry)
  cacheNullifiers : List (Nat × CNullifiersCacheEntry)
  hashBlock : Nat
  hashAnchor : Nat

def CCoinsViewCache.setCoinsEntry (st : CCoinsViewCache) (txid : Nat)
    (e : CCoinsCacheEntry) : CCoinsViewCache :=
  { st with cacheCoins := mset st.cacheCoins txid e }

def CCoinsViewCache.setScEntry (st : CCoinsViewCache) (scId : Nat)
    (e : CSidechainsCacheEntry) : CCoinsViewCache :=
  { st with cacheSidechains := mset st.cacheSidechains scId e }

def CCoinsViewCache.setEventsEntry (st : CCoinsViewCache) (height : Int)
    (e : CSidechainEventsCacheEntry) : CCoinsViewCache :=
  { st with cacheSidechainEvents := mset st.cacheSidechainEvents height e }

/-! ### Coin plumbing (coins.cpp 254-270, 444-490, 453-472, 1995-2013) -/

/-- CCoinsViewCache::FetchCoins: cache hit returns the entry; on miss the
base value is hydrated into the cache as a DEFAULT entry, upgraded to FRESH
if already pruned. Returns the found entry together with the possibly
hydrated state. -/
def CCoinsViewCache.FetchCoins (st : CCoinsViewCache) (txid : Nat) :
    Option CCoinsCacheEntry × CCoinsViewCache :=
  match mlook st.cacheCoins txid with
  | some e => (some e, st)
  | none =>
    match st.base.getCoins txid with
    | none => (none, st)
    | some c =>
      let e : CCoinsCacheEntry := { coins := c, dirty := false, fresh := c.IsPruned }
      (some e, st.setCoinsEntry txid e)

/-- CCoinsViewCache::GetCoins. -/
def CCoinsViewCache.GetCoins (st : CCoinsViewCache) (txid : Nat) :
    Option CCoins × CCoinsViewCache :=
  match st.FetchCoins txid with
  | (some e, st1) => (some e.coins, st1)
  | (none, st1) => (none, st1)

/-- CCoinsViewCache::HaveCoins (coins.cpp 483-490): entry found and its
vout is non-empty (vout.empty test, not IsPruned, as the source comments). -/
def CCoinsViewCache.HaveCoins (st : CCoinsViewCache) (txid : Nat) :
    Bool × CCoinsViewCache :=
  match st.FetchCoins txid with
  | (some e, st1) => (!e.coins.vout.isEmpty, st1)
  | (none, st1) => (false, st1)

/-- The pure observable behind GetCoins / HaveCoins: what coins the txid
reaches through the cache, ignoring hydration. -/
def CCoinsViewCache.coinsAt (st : CCoinsViewCache) (txid : Nat) : Option CCoins :=
  match mlook st.cacheCoins txid with
  | some e => some e.coins
  | none => st.base.getCoins txid

/-- CCoinsViewCache::ModifyCoins (coins.cpp 453-472), acquisition only:
inserts a blank FRESH entry when neither cache nor base has the txid,
mirrors a base entry (FRESH when the base entry is pruned), and eagerly
ORs DIRTY onto the flags. The returned state contains the entry the
modifier points at. -/
def CCoinsViewCache.ModifyCoinsAcquire (st : CCoinsViewCache) (txid : Nat) :
    CCoinsViewCache :=
  match mlook st.cacheCoins txid with
  | some e => st.setCoinsEntry txid { e with dirty := true }
  | none =>
    match st.base.getCoins txid with
    | none =>
      st.setCoinsEntry txid
        { coins := CCoins.ClearedCoins, dirty := true, fresh := true }
    | some c =>
      st.setCoinsEntry txid { coins := c, dirty := true, fresh := c.IsPruned }

/-- CCoinsModifier::~CCoinsModifier (coins.cpp 2001-2013): cleanup the
entry, then erase the slot when it is FRESH and pruned (the usage
accounting is omitted). -/
def CCoinsViewCache.ModifierDrop (st : CCoinsViewCache) (txid : Nat) :
    CCoinsViewCache :=
  match mlook st.cacheCoins txid with
  | none => st
  | some e =>
    let cleaned := e.coins.Cleanup
    if e.fresh && cleaned.IsPruned then
      { st with cacheCoins := merase st.cacheCoins txid }
    else
      st.setCoinsEntry txid { e with coins := cleaned }

/-! ### Sidechain plumbing (coins.cpp 272-312, 613-647) -/

/-- CCoinsViewCache::FetchSidechains (coins.cpp 272-288). -/
def CCoinsViewCache.FetchSidechains (st : CCoinsViewCache) (scId : Nat) :
    Option CSidechainsCacheEntry × CCoinsViewCache :=
  match mlook st.cacheSidechains scId with
  | some e => (some e, st)
  | none =>
    match st.base.getSidechain scId with
    | none => (none, st)
    | some v =>
      let e : CSidechainsCacheEntry := { sidechain := v, flag := ScCacheFlag.DEFAULT }
      (some e, st.setScEntry scId e)

/-- CCoinsViewCache::ModifySidechain (coins.cpp 290-304): like fetch, but a
double miss inserts a FRESH default-constructed record. -/
def CCoinsViewCache.ModifySidechain (st : CCoinsViewCache) (scId : Nat) :
    CSidechainsCacheEntry × CCoinsViewCache :=
  match mlook st.cacheSidechains scId with
  | some e => (e, st)
  | none =>
    match st.base.getSidechain scId with
    | some v =>
      let e : CSidechainsCacheEntry := { sidechain := v, flag := ScCacheFlag.DEFAULT }
      (e, st.setScEntry scId e)
    | none =>
      let e : CSidechainsCacheEntry :=
        { sidechain := CSidechain.defaultSc, flag := ScCacheFlag.FRESH }
      (e, st.setScEntry scId e)

/-- CCoinsViewCache::HaveSidechain (coins.cpp 613-617): found and not
ERASED. -/
def CCoinsViewCache.HaveSidechain (st : CCoinsViewCache) (scId : Nat) :
    Bool × CCoinsViewCache :=
  match st.FetchSidechains scId with
  | (some e, st1) => (decide (e.flag ≠ ScCacheFlag.ERASED), st1)
  | (none, st1) => (false, st1)

/-- CCoinsViewCache::GetSidechain (coins.cpp 619-630). -/
def CCoinsViewCache.GetSidechain (st : CCoinsViewCache) (scId : Nat) :
    Option CSidechain × CCoinsViewCache :=
  match st.FetchSidechains scId with
  | (some e, st1) =>
    if e.flag ≠ ScCacheFlag.ERASED then (some e.sidechain, st1) else (none, st1)
  | (none, st1) => (none, st1)

/-- The pure observable behind GetSidechain: what value the id maps to
through the cache, ignoring hydration. -/
def CCoinsViewCache.scAt (st : CCoinsViewCache) (scId : Nat) : Option CSidechain :=
  match mlook st.cacheSidechains scId with
  | some e => if e.flag = ScCacheFlag.ERASED then none else some e.sidechain
  | none => st.base.getSidechain scId

/-- CCoinsViewCache::GetScIds (coins.cpp 632-647): start from the base set,
then erase every ERASED cache id and insert every other cache id. -/
def CCoinsViewCache.GetScIds (st : CCoinsViewCache) : List Nat :=
  st.cacheSidechains.foldl
    (fun acc p =>
      if p.2.flag = ScCacheFlag.ERASED then sErase acc p.1 else sInsert acc p.1)
    st.base.getScIds

/-! ### Event plumbing (coins.cpp 314-347, 1311-1325) -/

/-- CCoinsViewCache::FetchSidechainEvents (coins.cpp 314-330). -/
def CCoinsViewCache.FetchSidechainEvents (st : CCoinsViewCache) (height : Int) :
    Option CSidechainEventsCacheEntry × CCoinsViewCache :=
  match mlook st.cacheSidechainEvents height with
  | some e => (some e, st)
  | none =>
    match st.base.getSidechainEvents height with
    | none => (none, st)
    | some v =>
      let e : CSidechainEventsCacheEntry := { scEvents := v, flag := ScCacheFlag.DEFAULT }
      (some e, st.setEventsEntry height e)

/-- CCoinsViewCache::ModifySidechainEvents (coins.cpp 332-347). -/
def CCoinsViewCache.ModifySidechainEvents (st : CCoinsViewCache) (height : Int) :
    CSidechainEventsCacheEntry × CCoinsViewCache :=
  match mlook st.cacheSidechainEvents height with
  | some e => (e, st)
  | none =>
    match st.base.getSidechainEvents height with
    | some v =>
      let e : CSidechainEventsCacheEntry := { scEvents := v, flag := ScCacheFlag.DEFAULT }
      (e, st.setEventsEntry height e)
    | none =>
      let e : CSidechainEventsCacheEntry :=
        { scEvents := CSidechainEvents.emptyEvents, flag := ScCacheFlag.FRESH }
      (e, st.setEventsEntry height e)

/-- CCoinsViewCache::HaveSidechainEvents (coins.cpp 1311-1315). -/
def CCoinsViewCache.HaveSidechainEvents (st : CCoinsViewCache) (height : Int) :
    Bool × CCoinsViewCache :=
  match st.FetchSidechainEvents height with
  | (some e, st1) => (decide (e.flag ≠ ScCacheFlag.ERASED), st1)
  | (none, st1) => (false, st1)

/-- CCoinsViewCache::GetSidechainEvents (coins.cpp 1317-1325). -/
def CCoinsViewCache.GetSidechainEvents (st : CCoinsViewCache) (height : Int) :
    Option CSidechainEvents × CCoinsViewCache :=
  match st.FetchSidechainEvents height with
  | (some e, st1) =>
    if e.flag ≠ ScCacheFlag.ERASED then (some e.scEvents, st1) else (none, st1)
  | (none, st1) => (none, st1)

/-- The pure observable behind GetSidechainEvents. -/
def CCoinsViewCache.eventsAt (st : CCoinsViewCache) (height : Int) :
    Option CSidechainEvents :=
  match mlook st.cacheSidechainEvents height with
  | some e => if e.flag = ScCacheFlag.ERASED then none else some e.scEvents
  | none => st.base.getSidechainEvents height

/-! ### Anchors (coins.cpp 349-370, 386-436, 499-503) -/

/-- CCoinsViewCache::GetBestAnchor (coins.cpp 499-503): lazily fetched from
the base on first read (the mutable member update is modelled by returning
the updated state). -/
def CCoinsViewCache.GetBestAnchor (st : CCoinsViewCache) :
    Nat × CCoinsViewCache :=
  if st.hashAnchor = 0 then
    (st.base.getBestAnchor, { st with hashAnchor := st.base.getBestAnchor })
  else (st.hashAnchor, st)

/-- CCoinsViewCache::GetAnchorAt (coins.cpp 349-370). -/
def CCoinsViewCache.GetAnchorAt (st : CCoinsViewCache) (rt : Nat) :
    Option ZCTree × CCoinsViewCache :=
  match mlook st.cacheAnchors rt with
  | some e => if e.entered then (some e.tree, st) else (none, st)
  | none =>
    match st.base.getAnchorAt rt with
    | none => (none, st)
    | some tree =>
      let e2 : CAnchorsCacheEntry := { entered := true, tree := tree, dirty := false }
      (some tree, { st with cacheAnchors := mset st.cacheAnchors rt e2 })

/-- CCoinsViewCache::PushAnchor (coins.cpp 386-411). -/
def CCoinsViewCache.PushAnchor (st : CCoinsViewCache) (tree : ZCTree) :
    CCoinsViewCache :=
  let newrt := tree.root
  let res := st.GetBestAnchor
  if res.1 ≠ newrt then
    let e2 : CAnchorsCacheEntry := { entered := true, tree := tree, dirty := true }
    { res.2 with cacheAnchors := mset res.2.cacheAnchors newrt e2, hashAnchor := newrt }
  else res.2

/-- CCoinsViewCache::PopAnchor (coins.cpp 413-436): none is the failure of
the assert that the current best anchor is present in the view. -/
def CCoinsViewCache.PopAnchor (st : CCoinsViewCache) (newrt : Nat) :
    Option CCoinsViewCache :=
  let res := st.GetBestAnchor
  if res.1 ≠ newrt then
    match res.2.GetAnchorAt res.1 with
    | (none, _) => none
    | (some _, st2) =>
      match mlook st2.cacheAnchors res.1 with
      | none => none
      | some e =>
        let e2 : CAnchorsCacheEntry := { e with entered := false, dirty := true }
        some { st2 with cacheAnchors := mset st2.cacheAnchors res.1 e2, hashAnchor := newrt }
  else some res.2

/-! ### UpdateSidechain on certificate (coins.cpp 1109-1176) and
RestoreSidechain (coins.cpp 1255-1309) -/

/-- The epoch-handling prefix of UpdateSidechain (coins.cpp 1132-1150):
cross-epoch promotes the data hashes and records the old past-epoch hash in
the undo with the CROSS_EPOCH_CERT_DATA bit; same-epoch supersession needs
strictly greater quality and re-credits the superseded bwt amount; any
other epoch is an error. -/
def epochHandle (sc : CSidechain) (cert : CScCertificate)
    (u : CSidechainUndoData) : Option (CSidechain × CSidechainUndoData) :=
  if cert.epochNumber = sc.lastTopQualityCertReferencedEpoch + 1 then
    some ({ sc with pastEpochTopQualityCertDataHash := sc.lastTopQualityCertDataHash },
          { u with pastEpochTopQualityCertDataHash := sc.pastEpochTopQualityCertDataHash,
                   contentCrossEpochCertData := true })
  else if cert.epochNumber = sc.lastTopQualityCertReferencedEpoch then
    if cert.quality ≤ sc.lastTopQualityCertQuality then none
    else some ({ sc with balance := sc.balance + sc.lastTopQualityCertBwtAmount }, u)
  else none

/-- The record-level body of UpdateSidechain(cert, blockUndo)
(coins.cpp 1132-1174): epoch handling, the balance check and debit, the
undo population (ANY_EPOCH_CERT_DATA) and the overwrite of the top-cert
fields. On the C++ error paths the function returns false; the entry
mutations already performed before such a return are dropped by the caller
along with the whole cache layer, so the model returns none. -/
def updateScRecord (sc : CSidechain) (cert : CScCertificate)
    (u : CSidechainUndoData) : Option (CSidechain × CSidechainUndoData) :=
  match epochHandle sc cert u with
  | none => none
  | some (sc1, u1) =>
    if sc1.balance < cert.bwtTotalAmount then none
    else
      let sc2 := { sc1 with balance := sc1.balance - cert.bwtTotalAmount }
      let u2 := { u1 with
                    prevTopCommittedCertHash := sc2.lastTopQualityCertHash,
                    prevTopCommittedCertReferencedEpoch := sc2.lastTopQualityCertReferencedEpoch,
                    prevTopCommittedCertQuality := sc2.lastTopQualityCertQuality,
                    prevTopCommittedCertBwtAmount := sc2.lastTopQualityCertBwtAmount,
                    lastTopQualityCertDataHash := sc2.lastTopQualityCertDataHash,
                    contentAnyEpochCertData := true }
      let sc3 := { sc2 with
                     lastTopQualityCertHash := cert.hash,
                     lastTopQualityCertReferencedEpoch := cert.epochNumber,
                     lastTopQualityCertQuality := cert.quality,
                     lastTopQualityCertBwtAmount := cert.bwtTotalAmount,
                     lastTopQualityCertDataHash := cert.dataHash }
      some (sc3, u2)

/-- CCoinsViewCache::UpdateSidechain(const CScCertificate&, CBlockUndo&)
(coins.cpp 1109-1176): the once-per-block assert on the undo slot, the
HaveSidechain lookup, the record-level update, the DIRTY flag and the
write-back of the undo slot. -/
def CCoinsViewCache.UpdateSidechainCert (st : CCoinsViewCache)
    (cert : CScCertificate) (blockUndo : CBlockUndoSc) :
    Option (CCoinsViewCache × CBlockUndoSc) :=
  let scUndo0 := blockUndo.scUndoGet cert.scId
  if scUndo0.prevTopCommittedCertHash ≠ 0 then none
  else
    match st.HaveSidechain cert.scId with
    | (false, _) => none
    | (true, st1) =>
      let res := st1.ModifySidechain cert.scId
      match updateScRecord res.1.sidechain cert scUndo0 with
      | none => none
      | some (sc3, u2) =>
        let e2 : CSidechainsCacheEntry := { sidechain := sc3, flag := ScCacheFlag.DIRTY }
        some (res.2.setScEntry cert.scId e2, blockUndo.scUndoSet cert.scId u2)

/-- The record-level body of RestoreSidechain (coins.cpp 1274-1304): the
top-cert assert, the balance re-credit, the inverse epoch handling (with
the asserted undo section bits) and the restore of the top-cert fields
from the undo. -/
def restoreScRecord (sc : CSidechain) (certToRevert : CScCertificate)
    (u : CSidechainUndoData) : Option CSidechain :=
  if certToRevert.hash ≠ sc.lastTopQualityCertHash then none
  else
    let scA := { sc with balance := sc.balance + certToRevert.bwtTotalAmount }
    let finish := fun (scX : CSidechain) =>
      if !u.contentAnyEpochCertData then none
      else
        some { scX with
                 lastTopQualityCertHash := u.prevTopCommittedCertHash,
                 lastTopQualityCertReferencedEpoch := u.prevTopCommittedCertReferencedEpoch,
                 lastTopQualityCertQuality := u.prevTopCommittedCertQuality,
                 lastTopQualityCertBwtAmount := u.prevTopCommittedCertBwtAmount,
                 lastTopQualityCertDataHash := u.lastTopQualityCertDataHash }
    if certToRevert.epochNumber = u.prevTopCommittedCertReferencedEpoch + 1 then
      if !u.contentCrossEpochCertData then none
      else
        let scB := { scA with lastTopQualityCertDataHash := scA.pastEpochTopQualityCertDataHash }
        let scC := { scB with pastEpochTopQualityCertDataHash := u.pastEpochTopQualityCertDataHash }
        finish scC
    else if certToRevert.epochNumber = u.prevTopCommittedCertReferencedEpoch then
      if certToRevert.quality ≤ u.prevTopCommittedCertQuality then none
      else finish { scA with balance := scA.balance - u.prevTopCommittedCertBwtAmount }
    else none

/-- CCoinsViewCache::RestoreSidechain (coins.cpp 1255-1309). -/
def CCoinsViewCache.RestoreSidechain (st : CCoinsViewCache)
    (certToRevert : CScCertificate) (sidechainUndo : CSidechainUndoData) :
    Option CCoinsViewCache :=
  match st.HaveSidechain certToRevert.scId with
  | (false, _) => none
  | (true, st1) =>
    let res := st1.ModifySidechain certToRevert.scId
    match restoreScRecord res.1.sidechain certToRevert sidechainUndo with
    | none => none
    | some sc2 =>
      let e2 : CSidechainsCacheEntry := { sidechain := sc2, flag := ScCacheFlag.DIRTY }
      some (res.2.setScEntry certToRevert.scId e2)

/-! ### ScheduleSidechainEvent(cert) (coins.cpp 1417-1468) -/

/-- CCoinsViewCache::AccessSidechain (coins.cpp 306-312): the fetched
record regardless of its flag (the ERASED check is the caller's business),
as a value together with the hydrated state. -/
def CCoinsViewCache.AccessSidechain (st : CCoinsViewCache) (scId : Nat) :
    Option CSidechain × CCoinsViewCache :=
  match st.FetchSidechains scId with
  | (some e, st1) => (some e.sidechain, st1)
  | (none, st1) => (none, st1)

/-- The erase step of ScheduleSidechainEvent(cert) on the ceasing set
(coins.cpp 1432). -/
def certCeasingErase (evs : CSidechainEvents) (scId : Nat) : CSidechainEvents :=
  { evs with ceasingScs := sErase evs.ceasingScs scId }

/-- The insert step of ScheduleSidechainEvent(cert) on the ceasing set
(coins.cpp 1458, 1460). -/
def certCeasingInsert (evs : CSidechainEvents) (scId : Nat) : CSidechainEvents :=
  { evs with ceasingScs := sInsert evs.ceasingScs scId }

/-- curCeasingHeight of ScheduleSidechainEvent(cert) (coins.cpp 1425). -/
def curCeasingHeightOf (sc : CSidechain) (cert : CScCertificate) : Int :=
  sc.StartHeightForEpoch (cert.epochNumber + 1) + sc.SafeguardMargin

/-- nextCeasingHeight of ScheduleSidechainEvent(cert) (coins.cpp 1426). -/
def nextCeasingHeightOf (sc : CSidechain) (cert : CScCertificate) : Int :=
  curCeasingHeightOf sc cert + sc.withdrawalEpochLength

/-- CCoinsViewCache::ScheduleSidechainEvent(const CScCertificate&)
(coins.cpp 1417-1468): move the ceasing event of the certificate's
sidechain from the current ceasing height to the next one; when the
current one is already gone but the next one is already scheduled, the
duplicate schedule returns success untouched. -/
def CCoinsViewCache.ScheduleSidechainEventCert (st : CCoinsViewCache)
    (cert : CScCertificate) : Option CCoinsViewCache :=
  match st.AccessSidechain cert.scId with
  | (none, _) => none
  | (some sc, st1) =>
    let curCeasingHeight := curCeasingHeightOf sc cert
    let nextCeasingHeight := nextCeasingHeightOf sc cert
    match st1.HaveSidechainEvents curCeasingHeight with
    | (true, st2) =>
      let res := st2.ModifySidechainEvents curCeasingHeight
      let ev1 := certCeasingErase res.1.scEvents cert.scId
      let flag1 := if !ev1.IsNull then ScCacheFlag.DIRTY else ScCacheFlag.ERASED
      let st3 := res.2.setEventsEntry curCeasingHeight { scEvents := ev1, flag := flag1 }
      let res2 := st3.ModifySidechainEvents nextCeasingHeight
      let ev2 := certCeasingInsert res2.1.scEvents cert.scId
      let flag2 := if res2.1.flag = ScCacheFlag.FRESH then res2.1.flag else ScCacheFlag.DIRTY
      some (res2.2.setEventsEntry nextCeasingHeight { scEvents := ev2, flag := flag2 })
    | (false, st2) =>
      match st2.HaveSidechainEvents nextCeasingHeight with
      | (false, _) => none
      | (true, st3) => some st3

/-! ### NullifyBackwardTransfers (coins.cpp 1178-1211) -/

/-- The bwt-nullifying loop body of NullifyBackwardTransfers
(coins.cpp 1195-1210): push the output at pos into the undo list, spend it,
and when the spend emptied the entry stamp the provenance onto the record
just pushed. The C++ loop bound re-reads vout.size() as it shrinks. -/
def nullifyLoop (c : CCoins) (outs : List CTxInUndo) (pos : Nat) :
    CCoins × List CTxInUndo :=
  if h : pos < c.vout.length then
    let u0 := CTxInUndo.ofTxOut (c.vout.getD pos none)
    let c1 := c.SpendApply pos
    let u1 :=
      if c1.vout.length = 0 then
        { u0 with fCoinBase := c1.fCoinBase, nHeight := c1.nHeight,
                  nVersion := c1.nVersion, nFirstBwtPos := c1.nFirstBwtPos,
                  nBwtMaturityHeight := c1.nBwtMaturityHeight }
      else u0
    nullifyLoop c1 (outs ++ [u1]) (pos + 1)
  else (c, outs)
termination_by c.vout.length - pos
decreasing_by
  have h4 : ∀ (l : List CTxOutM),
      (l.dropWhile (fun o => o.isNone)).length ≤ l.length := by
    intro l
    induction l with
    | nil => simp
    | cons x t ih =>
      by_cases hx : (Option.isNone x) = true
      · rw [List.dropWhile_cons_of_pos hx]
        exact le_trans ih (Nat.le_succ _)
      · rw [List.dropWhile_cons_of_neg hx]
  have h2 : (c.SpendApply pos).vout.length ≤ c.vout.length := by
    unfold CCoins.SpendApply CCoins.Spend
    by_cases hc : (pos ≥ c.vout.length || (c.vout.getD pos none).isNone) = true
    · rw [if_pos hc]
    · rw [if_neg hc]
      simp only [CCoins.Cleanup, cleanupVout]
      calc ((c.vout.set pos none).reverse.dropWhile (fun o => o.isNone)).reverse.length
          = ((c.vout.set pos none).reverse.dropWhile (fun o => o.isNone)).length :=
            List.length_reverse _
        _ ≤ (c.vout.set pos none).reverse.length := h4 _
        _ = (c.vout.set pos none).length := List.length_reverse _
        _ = c.vout.length := List.length_set _ _ _
  omega

/-- CCoinsViewCache::NullifyBackwardTransfers (coins.cpp 1178-1211): skip
null cert hashes and certs without coins; otherwise spend every output
from nFirstBwtPos up under a modifier (whose drop runs at scope exit).
A negative nFirstBwtPos never enters the loop (the C++ comparison promotes
it to an unsigned value larger than any vector size). none is the failure
of the nBwtMaturityHeight assert. -/
def CCoinsViewCache.NullifyBackwardTransfers (st : CCoinsViewCache)
    (certHash : Nat) (nullifiedOuts : List CTxInUndo) :
    Option (CCoinsViewCache × List CTxInUndo) :=
  if certHash = 0 then some (st, nullifiedOuts)
  else
    match st.HaveCoins certHash with
    | (false, st1) => some (st1, nullifiedOuts)
    | (true, st1) =>
      let st2 := st1.ModifyCoinsAcquire certHash
      match mlook st2.cacheCoins certHash with
      | none => none
      | some e =>
        if e.coins.nBwtMaturityHeight = 0 then none
        else if e.coins.nFirstBwtPos < 0 then
          some (st2.ModifierDrop certHash, nullifiedOuts)
        else
          let res := nullifyLoop e.coins nullifiedOuts e.coins.nFirstBwtPos.toNat
          let st3 := st2.setCoinsEntry certHash { e with coins := res.1 }
          some (st3.ModifierDrop certHash, res.2)

/-! ### HandleSidechainEvents (coins.cpp 1622-1689) -/

/-- One iteration of the maturing loop (coins.cpp 1631-1651): credit the
amount maturing at this height to the balance, record it in the undo slot
with the MATURED_AMOUNTS bit, erase it from the schedule, mark DIRTY.
none is the failure of the HaveSidechain / mImmatureAmounts.count asserts. -/
def matureOne (height : Int) (acc : CCoinsViewCache × CBlockUndoSc)
    (maturingScId : Nat) : Option (CCoinsViewCache × CBlockUndoSc) :=
  match acc.1.HaveSidechain maturingScId with
  | (false, _) => none
  | (true, st1) =>
    let res := st1.ModifySidechain maturingScId
    match mlook res.1.sidechain.mImmatureAmounts height with
    | none => none
    | some amount =>
      let sc1 := { res.1.sidechain with balance := res.1.sidechain.balance + amount }
      let u0 := acc.2.scUndoGet maturingScId
      let bu1 := acc.2.scUndoSet maturingScId
        { u0 with appliedMaturedAmount := amount, contentMaturedAmounts := true }
      let sc2 := { sc1 with mImmatureAmounts := merase sc1.mImmatureAmounts height }
      let e2 : CSidechainsCacheEntry := { sidechain := sc2, flag := ScCacheFlag.DIRTY }
      some (res.2.setScEntry maturingScId e2, bu1)

def matureLoop (height : Int) :
    List Nat → CCoinsViewCache × CBlockUndoSc → Option (CCoinsViewCache × CBlockUndoSc)
  | [], acc => some acc
  | scId :: rest, acc =>
    match matureOne height acc scId with
    | none => none
    | some acc2 => matureLoop height rest acc2

/-- One iteration of the ceasing loop (coins.cpp 1654-1684): mark the
sidechain CEASED and DIRTY, set the CEASED_CERT_DATA undo bit, and unless
the sidechain never had a certificate nullify the backward transfers of
its top one (the pCertsStateInfo out-list is the nullptr case). none is
the failure of the GetSidechain / null-hash asserts. -/
def ceaseOne (acc : CCoinsViewCache × CBlockUndoSc) (ceasingScId : Nat) :
    Option (CCoinsViewCache × CBlockUndoSc) :=
  match acc.1.GetSidechain ceasingScId with
  | (none, _) => none
  | (some sidechain, st1) =>
    let res := st1.ModifySidechain ceasingScId
    let e2 : CSidechainsCacheEntry :=
      { sidechain := { res.1.sidechain with currentState := ScState.CEASED },
        flag := ScCacheFlag.DIRTY }
    let st2 := res.2.setScEntry ceasingScId e2
    let u0 := acc.2.scUndoGet ceasingScId
    let bu1 := acc.2.scUndoSet ceasingScId { u0 with contentCeasedCertData := true }
    if sidechain.lastTopQualityCertReferencedEpoch = EPOCH_NULL then
      if sidechain.lastTopQualityCertHash = 0 then some (st2, bu1) else none
    else
      match st2.NullifyBackwardTransfers sidechain.lastTopQualityCertHash
          (bu1.scUndoGet ceasingScId).ceasedBwts with
      | none => none
      | some (st3, outs) =>
        let u1 := bu1.scUndoGet ceasingScId
        some (st3, bu1.scUndoSet ceasingScId { u1 with ceasedBwts := outs })

def ceaseLoop :
    List Nat → CCoinsViewCache × CBlockUndoSc → Option (CCoinsViewCache × CBlockUndoSc)
  | [], acc => some acc
  | scId :: rest, acc =>
    match ceaseOne acc scId with
    | none => none
    | some acc2 => ceaseLoop rest acc2

/-- CCoinsViewCache::HandleSidechainEvents (coins.cpp 1622-1689): no event
at this height is a success without action; otherwise run the maturing
loop and the ceasing loop over the event's sets and finally mark the event
entry ERASED. -/
def CCoinsViewCache.HandleSidechainEvents (st : CCoinsViewCache) (height : Int)
    (blockUndo : CBlockUndoSc) : Option (CCoinsViewCache × CBlockUndoSc) :=
  match st.HaveSidechainEvents height with
  | (false, st1) => some (st1, blockUndo)
  | (true, st1) =>
    let got := st1.GetSidechainEvents height
    let scEvents := got.1.getD CSidechainEvents.emptyEvents
    match matureLoop height scEvents.maturingScs (got.2, blockUndo) with
    | none => none
    | some acc1 =>
      match ceaseLoop scEvents.ceasingScs acc1 with
      | none => none
      | some acc2 =>
        let res := acc2.1.ModifySidechainEvents height
        let e2 : CSidechainEventsCacheEntry := { res.1 with flag := ScCacheFlag.ERASED }
        some (res.2.setEventsEntry height e2, acc2.2)

/-! ### The coin loop of BatchWrite (coins.cpp 509-550) -/

/-- The body of the BatchWrite coin-map loop for one child entry
(coins.cpp 517-547), applied to the receiving map. Non-DIRTY entries are
skipped; a DIRTY entry with the key absent here installs the (necessarily
FRESH, asserted - none is that assert) non-pruned payload as DIRTY|FRESH
and drops a pruned one; a key present here is erased when FRESH-here meets
a pruned child and otherwise overwritten with DIRTY ORed on. -/
def batchWriteCoinsStep (parent : List (Nat × CCoinsCacheEntry)) (key : Nat)
    (child : CCoinsCacheEntry) : Option (List (Nat × CCoinsCacheEntry)) :=
  if child.dirty then
    match mlook parent key with
    | none =>
      if !child.coins.IsPruned then
        if child.fresh then
          some (mset parent key { coins := child.coins, dirty := true, fresh := true })
        else none
      else some parent
    | some pe =>
      if pe.fresh && child.coins.IsPruned then some (merase parent key)
      else some (mset parent key { coins := child.coins, dirty := true, fresh := pe.fresh })
  else some parent

/-- The full coin-map loop of BatchWrite: each child entry is applied in
turn and the child map is drained. -/
def batchWriteCoins :
    List (Nat × CCoinsCacheEntry) → List (Nat × CCoinsCacheEntry) →
    Option (List (Nat × CCoinsCacheEntry))
  | parent, [] => some parent
  | parent, (k, e) :: rest =>
    match batchWriteCoinsStep parent k e with
    | none => none
    | some parent2 => batchWriteCoins parent2 rest

/-! ### CBlockUndo serialization (undo.h 277-374)

The stream is modelled at the granularity the new/old-format dispatch
works at: a compact size is one stream item, each serialized CTxUndo entry
is one opaque item, the old_tree_root and the scUndoDatabyScId map are one
item each (their own byte-level encodings are independent of the marker
logic). -/

/-- One item of the undo stream. -/
inductive UndoStreamItem where
  | csize (n : Nat)
  | txu (payload : Nat)
  | treeRoot (r : Nat)
  | scmap (m : List (Nat × Nat))
deriving DecidableEq, Repr

/-- CBlockUndo with opaque CTxUndo payloads and opaque per-sidechain undo
payloads, plus the memory-only format flag. -/
structure CBlockUndoSer where
  includesSidechainAttributes : Bool
  vtxundo : List Nat
  old_tree_root : Nat
  scUndoDatabyScId : List (Nat × Nat)
deriving DecidableEq, Repr

/-- CBlockUndo::_marker (undo.h 285): the 16-bit magic 0xffff read in
place of the vtxundo count to signal the new format. -/
def blockUndoMarker : Nat := 0xffff

/-- MAX_BLOCK_SIZE and MIN_TX_SIZE as the static_assert of undo.h 287-288
uses them. Modelled from the spec: the constants live outside the sources;
the accompanying comment gives 2M / 61 bytes. -/
def MAX_BLOCK_SIZE : Nat := 2000000

def MIN_TX_SIZE : Nat := 61

/-- ::Serialize of a std::vector: its compact-size count then its
elements. -/
def serializeVtxundo (v : List Nat) : List UndoStreamItem :=
  UndoStreamItem.csize v.length :: v.map UndoStreamItem.txu

/-- CBlockUndo::Serialize (undo.h 308-323): the marker then vector, root
and sidechain map in the new format; just vector and root in the old. -/
def serializeBlockUndo (u : CBlockUndoSer) : List UndoStreamItem :=
  if u.includesSidechainAttributes then
    UndoStreamItem.csize blockUndoMarker ::
      (serializeVtxundo u.vtxundo ++
        [UndoStreamItem.treeRoot u.old_tree_root,
         UndoStreamItem.scmap u.scUndoDatabyScId])
  else
    serializeVtxundo u.vtxundo ++ [UndoStreamItem.treeRoot u.old_tree_root]

/-- ::AddEntriesInVector: read exactly n already-counted CTxUndo entries. -/
def readTxEntries : Nat → List UndoStreamItem → Option (List Nat × List UndoStreamItem)
  | 0, s => some ([], s)
  | n + 1, UndoStreamItem.txu t :: s =>
    match readTxEntries n s with
    | some (v, s2) => some (t :: v, s2)
    | none => none
  | _ + 1, _ => none

/-- CBlockUndo::Unserialize (undo.h 325-347): read the leading compact
size; the marker selects the new format (vector with its own count, root,
sidechain map, flag set); any other value is itself the count of legacy
TxUndo entries followed by the root, with no sidechain data read (the
deserialized object starts from the default-constructed state, so its
sidechain map is empty). Returns the object and the unconsumed stream. -/
def unserializeBlockUndo (s : List UndoStreamItem) :
    Option (CBlockUndoSer × List UndoStreamItem) :=
  match s with
  | UndoStreamItem.csize nSize :: s1 =>
    if nSize = blockUndoMarker then
      match s1 with
      | UndoStreamItem.csize m :: s2 =>
        match readTxEntries m s2 with
        | some (v, UndoStreamItem.treeRoot r :: UndoStreamItem.scmap sm :: s3) =>
          some ({ includesSidechainAttributes := true, vtxundo := v,
                  old_tree_root := r, scUndoDatabyScId := sm }, s3)
        | _ => none
      | _ => none
    else
      match readTxEntries nSize s1 with
      | some (v, UndoStreamItem.treeRoot r :: s2) =>
        some ({ includesSidechainAttributes := false, vtxundo := v,
                old_tree_root := r, scUndoDatabyScId := [] }, s2)
      | _ => none
  | _ => none

/-! ### Concrete fixtures used to exercise the theorems below -/

/-- A base view with nothing in it (the null bottom view of the trait). -/
def emptyBase : CCoinsViewBase :=
  { getCoins := fun _ => none, getSidechain := fun _ => none,
    getSidechainEvents := fun _ => none, getAnchorAt := fun _ => none,
    getNullifier := fun _ => false, getBestBlock := 0, getBestAnchor := 0,
    getScIds := [] }

/-- A cache over the empty base with every map empty. -/
def emptyCache : CCoinsViewCache :=
  { base := emptyBase, cacheCoins := [], cacheSidechains := [],
    cacheSidechainEvents := [], cacheAnchors := [], cacheNullifiers := [],
    hashBlock := 0, hashAnchor := 0 }

/-- A live sidechain with id 7: created at height 200, epoch length 10,
balance 100, one top-quality certificate for epoch 0 of quality 5 and bwt
amount 30 already committed. -/
def scFix : CSidechain :=
  { creationBlockHash := 3, creationBlockHeight := 200, creationTxHash := 4,
    lastTopQualityCertHash := 11, lastTopQualityCertReferencedEpoch := 0,
    lastTopQualityCertQuality := 5, lastTopQualityCertBwtAmount := 30,
    lastTopQualityCertDataHash := 21, pastEpochTopQualityCertDataHash := 22,
    balance := 100, mImmatureAmounts := [(204, 40)], withdrawalEpochLength := 10,
    customData := 0, constant := 0, wCertVk := 0, wMbtrVk := none,
    currentState := ScState.ALIVE }

/-- A cache whose only sidechain is scFix, with its maturing event at 204
and its ceasing event at the ceasing height 212 of epoch 0. -/
def stFix : CCoinsViewCache :=
  { emptyCache with
      cacheSidechains := [(7, { sidechain := scFix, flag := ScCacheFlag.DEFAULT })],
      cacheSidechainEvents :=
        [(204, { scEvents := { maturingScs := [7], ceasingScs := [] },
                 flag := ScCacheFlag.DEFAULT }),
         (212, { scEvents := { maturingScs := [], ceasingScs := [7] },
                 flag := ScCacheFlag.DEFAULT })] }

/-- A same-epoch superseding certificate for scFix: epoch 0, quality 7,
bwt total 40. -/
def certFix : CScCertificate :=
  { hash := 12, scId := 7, epochNumber := 0, quality := 7,
    bwtTotalAmount := 40, dataHash := 23 }

/-- An empty block undo. -/
def buFix : CBlockUndoSc := { scUndoDatabyScId := [] }

/-- The single-output FRESH coin entry of the modifier-drop fixture. -/
def coinFixEntry : CCoinsCacheEntry :=
  { coins := { fCoinBase := false,
               vout := [some { nValue := 5, scriptPubKey := [1] }],
               nHeight := 10, nVersion := 1,
               nFirstBwtPos := BWT_POS_UNSET, nBwtMaturityHeight := 0 },
    dirty := false, fresh := true }

/-- A cache holding coinFixEntry FRESH at txid 9. -/
def stCoinFix : CCoinsViewCache :=
  { emptyCache with cacheCoins := [(9, coinFixEntry)] }

/-- A cache carrying an ERASED sidechain 7 and an ERASED event at height
204 over a base that still reports id 7. -/
def stErasedFix : CCoinsViewCache :=
  { emptyCache with
      base := { emptyBase with getScIds := [7], getSidechain := fun k => if k = 7 then some scFix else none },
      cacheSidechains := [(7, { sidechain := scFix, flag := ScCacheFlag.ERASED })],
      cacheSidechainEvents :=
        [(204, { scEvents := { maturingScs := [7], ceasingScs := [] },
                 flag := ScCacheFlag.ERASED })] }

/-- An anchors fixture: best anchor 33 materialized in the cache. -/
def stAnchorFix : CCoinsViewCache :=
  { emptyCache with
      hashAnchor := 33,
      cacheAnchors := [(33, { entered := true, tree := { root := 33, contents := 0 }, dirty := false })] }

/-- A new-format block undo fixture. -/
def buSerFix : CBlockUndoSer :=
  { includesSidechainAttributes := true, vtxundo := [5, 6], old_tree_root := 42,
    scUndoDatabyScId := [(1, 2)] }

/-- The per-entry BatchWrite contract exactly as the specification words
it: for a DIRTY child entry, (1) key absent here and child not pruned ->
child is FRESH and is installed DIRTY|FRESH; (2) key present here, FRESH
here, child pruned -> the slot is removed; (3) otherwise the receiving
payload is overwritten with the child payload, DIRTY is set, and the
FRESH flag of the receiving layer is preserved. -/
def batchWriteSpecStatement : Prop :=
  ∀ (parent : List (Nat × CCoinsCacheEntry)) (key : Nat) (child : CCoinsCacheEntry)
    (result : List (Nat × CCoinsCacheEntry)),
    child.dirty = true →
    batchWriteCoinsStep parent key child = some result →
    ((mlook parent key = none ∧ child.coins.IsPruned = false →
        child.fresh = true ∧
        mlook result key = some { coins := child.coins, dirty := true, fresh := true }) ∧
     (∀ pe, mlook parent key = some pe → pe.fresh = true → child.coins.IsPruned = true →
        mlook result key = none) ∧
     (¬(mlook parent key = none ∧ child.coins.IsPruned = false) →
      ¬(∃ pe, mlook parent key = some pe ∧ pe.fresh = true ∧ child.coins.IsPruned = true) →
        ∃ r, mlook result key = some r ∧ r.coins = child.coins ∧ r.dirty = true ∧
          (∀ pe, mlook parent key = some pe → r.fresh = pe.fresh)))

/-- The facts HandleSidechainEvents establishes for one matured sidechain
and that the remaining iterations preserve: the cache carries a live entry
whose balance is B and whose immature schedule no longer has the height,
and the block undo records the matured amount a with the MATURED_AMOUNTS
bit. -/
def maturedInv (scId : Nat) (height : Int) (B a : Int)
    (acc : CCoinsViewCache × CBlockUndoSc) : Prop :=
  (∃ e, mlook acc.1.cacheSidechains scId = some e ∧ e.flag ≠ ScCacheFlag.ERASED ∧
    e.sidechain.balance = B ∧ mlook e.sidechain.mImmatureAmounts height = none) ∧
  (acc.2.scUndoGet scId).appliedMaturedAmount = a ∧
  (acc.2.scUndoGet scId).contentMaturedAmounts = true

/-! ## Lemmas

General helper lemmas about the map and set helpers, the coin entry and
the cache plumbing, followed by the theorems settling the documented
properties. -/

theorem mlook_mset_self {κ α : Type} [DecidableEq κ] (m : List (κ × α)) (k : κ) (v : α) :
    mlook (mset m k v) k = some v := by
  induction m with
  | nil => simp [mset, mlook]
  | cons h t ih =>
    obtain ⟨k0, v0⟩ := h
    by_cases hk : k0 = k
    · simp [mset, hk, mlook]
    · simp [mset, hk, mlook, ih]

theorem mlook_mset_ne {κ α : Type} [DecidableEq κ] (m : List (κ × α)) (k j : κ) (v : α)
    (hne : k ≠ j) : mlook (mset m k v) j = mlook m j := by
  induction m with
  | nil => simp [mset, mlook, hne]
  | cons h t ih =>
    obtain ⟨k0, v0⟩ := h
    simp only [mset]
    by_cases hk : k0 = k
    · subst hk
      simp only [if_pos rfl, mlook]
      rw [if_neg hne, if_neg hne]
    · rw [if_neg hk]
      simp only [mlook]
      by_cases hj : k0 = j
      · simp [hj]
      · simp [hj, ih]

theorem mlook_merase_self {κ α : Type} [DecidableEq κ] (m : List (κ × α)) (k : κ) :
    mlook (merase m k) k = none := by
  induction m with
  | nil => simp [merase, mlook]
  | cons h t ih =>
    obtain ⟨k0, v0⟩ := h
    by_cases hk : k0 = k
    · have h2 : merase ((k0, v0) :: t) k = merase t k := by simp [merase, hk]
      rw [h2]
      exact ih
    · have h2 : merase ((k0, v0) :: t) k = (k0, v0) :: merase t k := by simp [merase, hk]
      rw [h2]
      simp only [mlook]
      rw [if_neg hk]
      exact ih

theorem mlook_merase_ne {κ α : Type} [DecidableEq κ] (m : List (κ × α)) (k j : κ)
    (hne : k ≠ j) : mlook (merase m k) j = mlook m j := by
  induction m with
  | nil => simp [merase, mlook]
  | cons h t ih =>
    obtain ⟨k0, v0⟩ := h
    by_cases hk : k0 = k
    · subst hk
      have h2 : merase ((k0, v0) :: t) k0 = merase t k0 := by simp [merase]
      rw [h2, ih]
      simp only [mlook]
      rw [if_neg hne]
    · have h2 : merase ((k0, v0) :: t) k = (k0, v0) :: merase t k := by simp [merase, hk]
      rw [h2]
      simp only [mlook]
      by_cases hj : k0 = j
      · simp [hj]
      · simp [hj, ih]

theorem mem_sInsert_self (l : List Nat) (k : Nat) : k ∈ sInsert l k := by
  unfold sInsert
  by_cases h : k ∈ l
  · simp [h]
  · simp [h]

theorem mem_sInsert_of_ne (l : List Nat) (k j : Nat) (hne : j ≠ k) :
    (j ∈ sInsert l k) ↔ j ∈ l := by
  unfold sInsert
  by_cases h : k ∈ l
  · simp [h]
  · simp [h, hne]

theorem not_mem_sErase_self (l : List Nat) (k : Nat) : k ∉ sErase l k := by
  simp [sErase]

theorem not_mem_sErase_of_not_mem (l : List Nat) (k j : Nat) (h : j ∉ l) :
    j ∉ sErase l k := by
  intro hc
  exact h (List.mem_of_mem_filter hc)

theorem dropWhile_all_eq_nil {α : Type} (p : α → Bool) (l : List α)
    (h : (l.dropWhile p).all p = true) : l.dropWhile p = [] := by
  induction l with
  | nil => rfl
  | cons x t ih =>
    by_cases hx : p x = true
    · rw [List.dropWhile_cons_of_pos hx] at h ⊢
      exact ih h
    · rw [List.dropWhile_cons_of_neg hx] at h
      simp only [List.all_cons, Bool.and_eq_true] at h
      exact absurd h.1 hx

/-- After Cleanup, the vector carries no trailing null, so prunedness and
emptiness of the outputs vector coincide. -/
theorem cleanup_isPruned_iff_vout_nil (c : CCoins) :
    (c.Cleanup.IsPruned = true) ↔ c.Cleanup.vout = [] := by
  unfold CCoins.Cleanup CCoins.IsPruned cleanupVout
  constructor
  · intro h
    simp only [List.all_reverse] at h
    rw [dropWhile_all_eq_nil _ _ h]
    rfl
  · intro h
    rw [h]
    rfl

theorem mem_of_mem_dropWhile {α : Type} (p : α → Bool) (l : List α) (x : α)
    (h : x ∈ l.dropWhile p) : x ∈ l := by
  induction l with
  | nil => simp at h
  | cons y t ih =>
    by_cases hy : p y = true
    · rw [List.dropWhile_cons_of_pos hy] at h
      exact List.mem_cons_of_mem _ (ih h)
    · rw [List.dropWhile_cons_of_neg hy] at h
      exact h

/-- Cleanup preserves prunedness. -/
theorem cleanup_of_pruned (c : CCoins) (h : c.IsPruned = true) :
    c.Cleanup.IsPruned = true := by
  unfold CCoins.IsPruned at h
  unfold CCoins.Cleanup CCoins.IsPruned cleanupVout
  simp only [List.all_eq_true] at h ⊢
  intro o ho
  exact h o (List.mem_reverse.mp (mem_of_mem_dropWhile _ _ _ (List.mem_reverse.mp ho)))

/-! ### Cache plumbing lemmas -/

theorem setScEntry_scAt_self (st : CCoinsViewCache) (k : Nat) (e : CSidechainsCacheEntry) :
    (st.setScEntry k e).scAt k =
      if e.flag = ScCacheFlag.ERASED then none else some e.sidechain := by
  unfold CCoinsViewCache.setScEntry CCoinsViewCache.scAt
  simp [mlook_mset_self]

theorem setScEntry_scAt_ne (st : CCoinsViewCache) (k j : Nat) (e : CSidechainsCacheEntry)
    (hne : k ≠ j) : (st.setScEntry k e).scAt j = st.scAt j := by
  unfold CCoinsViewCache.setScEntry CCoinsViewCache.scAt
  simp only [mlook_mset_ne _ _ _ _ hne]

theorem scUndoGet_set_self (bu : CBlockUndoSc) (k : Nat) (u : CSidechainUndoData) :
    (bu.scUndoSet k u).scUndoGet k = u := by
  unfold CBlockUndoSc.scUndoSet CBlockUndoSc.scUndoGet
  simp [mlook_mset_self]

theorem scUndoGet_set_ne (bu : CBlockUndoSc) (k j : Nat) (u : CSidechainUndoData)
    (hne : k ≠ j) : (bu.scUndoSet k u).scUndoGet j = bu.scUndoGet j := by
  unfold CBlockUndoSc.scUndoSet CBlockUndoSc.scUndoGet
  simp only [mlook_mset_ne _ _ _ _ hne]

/-- After HaveSidechain returned true, the (possibly hydrated) state has a
non-ERASED entry for the id carrying the observed record, ModifySidechain
is a cache hit on it, and nothing else observable moved. -/
theorem have_modify_of_scAt (st : CCoinsViewCache) (scId : Nat) (v : CSidechain)
    (h : st.scAt scId = some v) :
    ∃ st1 e, st.HaveSidechain scId = (true, st1) ∧
      mlook st1.cacheSidechains scId = some e ∧ e.flag ≠ ScCacheFlag.ERASED ∧
      e.sidechain = v ∧ st1.ModifySidechain scId = (e, st1) ∧
      (∀ j, st1.scAt j = st.scAt j) ∧
      st1.cacheSidechainEvents = st.cacheSidechainEvents ∧
      st1.cacheCoins = st.cacheCoins ∧ st1.base = st.base := by
  unfold CCoinsViewCache.scAt at h
  cases hm : mlook st.cacheSidechains scId with
  | some e =>
    rw [hm] at h
    by_cases hf : e.flag = ScCacheFlag.ERASED
    · simp [hf] at h
    · simp only [if_neg hf] at h
      refine ⟨st, e, ?_, hm, hf, by injection h, ?_, fun j => rfl, rfl, rfl, rfl⟩
      · unfold CCoinsViewCache.HaveSidechain CCoinsViewCache.FetchSidechains
        rw [hm]
        simp [hf]
      · unfold CCoinsViewCache.ModifySidechain
        rw [hm]
  | none =>
    simp only [hm] at h
    refine ⟨st.setScEntry scId { sidechain := v, flag := ScCacheFlag.DEFAULT },
            { sidechain := v, flag := ScCacheFlag.DEFAULT }, ?_, ?_, by simp, rfl, ?_, ?_, rfl, rfl, rfl⟩
    · unfold CCoinsViewCache.HaveSidechain CCoinsViewCache.FetchSidechains
      simp only [hm, h]
      rfl
    · unfold CCoinsViewCache.setScEntry
      exact mlook_mset_self _ _ _
    · unfold CCoinsViewCache.ModifySidechain CCoinsViewCache.setScEntry
      simp [mlook_mset_self]
    · intro j
      by_cases hj : scId = j
      · subst hj
        rw [setScEntry_scAt_self]
        simp only [CCoinsViewCache.scAt, hm]
        simp [h]
      · exact setScEntry_scAt_ne _ _ _ _ hj

theorem setEventsEntry_eventsAt_self (st : CCoinsViewCache) (k : Int)
    (e : CSidechainEventsCacheEntry) :
    (st.setEventsEntry k e).eventsAt k =
      if e.flag = ScCacheFlag.ERASED then none else some e.scEvents := by
  unfold CCoinsViewCache.setEventsEntry CCoinsViewCache.eventsAt
  simp [mlook_mset_self]

theorem setEventsEntry_eventsAt_ne (st : CCoinsViewCache) (k j : Int)
    (e : CSidechainEventsCacheEntry) (hne : k ≠ j) :
    (st.setEventsEntry k e).eventsAt j = st.eventsAt j := by
  unfold CCoinsViewCache.setEventsEntry CCoinsViewCache.eventsAt
  simp only [mlook_mset_ne _ _ _ _ hne]

/-- After HaveSidechainEvents returned true, the (possibly hydrated) state
has a non-ERASED entry at the height carrying the observed event,
ModifySidechainEvents is a cache hit on it, and nothing else observable
moved. -/
theorem have_modify_of_eventsAt (st : CCoinsViewCache) (h : Int) (ev : CSidechainEvents)
    (hev : st.eventsAt h = some ev) :
    ∃ st1 e, st.HaveSidechainEvents h = (true, st1) ∧
      mlook st1.cacheSidechainEvents h = some e ∧ e.flag ≠ ScCacheFlag.ERASED ∧
      e.scEvents = ev ∧ st1.ModifySidechainEvents h = (e, st1) ∧
      (∀ j, st1.eventsAt j = st.eventsAt j) ∧
      st1.cacheSidechains = st.cacheSidechains ∧
      st1.cacheCoins = st.cacheCoins ∧ st1.base = st.base := by
  unfold CCoinsViewCache.eventsAt at hev
  cases hm : mlook st.cacheSidechainEvents h with
  | some e =>
    rw [hm] at hev
    by_cases hf : e.flag = ScCacheFlag.ERASED
    · simp [hf] at hev
    · simp only [if_neg hf] at hev
      refine ⟨st, e, ?_, hm, hf, by injection hev, ?_, fun j => rfl, rfl, rfl, rfl⟩
      · unfold CCoinsViewCache.HaveSidechainEvents CCoinsViewCache.FetchSidechainEvents
        rw [hm]
        simp [hf]
      · unfold CCoinsViewCache.ModifySidechainEvents
        rw [hm]
  | none =>
    simp only [hm] at hev
    refine ⟨st.setEventsEntry h { scEvents := ev, flag := ScCacheFlag.DEFAULT },
            { scEvents := ev, flag := ScCacheFlag.DEFAULT }, ?_, ?_, by simp, rfl, ?_, ?_, rfl, rfl, rfl⟩
    · unfold CCoinsViewCache.HaveSidechainEvents CCoinsViewCache.FetchSidechainEvents
      simp only [hm, hev]
      rfl
    · unfold CCoinsViewCache.setEventsEntry
      exact mlook_mset_self _ _ _
    · unfold CCoinsViewCache.ModifySidechainEvents CCoinsViewCache.setEventsEntry
      simp [mlook_mset_self]
    · intro j
      by_cases hj : h = j
      · subst hj
        rw [setEventsEntry_eventsAt_self]
        simp only [CCoinsViewCache.eventsAt, hm]
        simp [hev]
      · exact setEventsEntry_eventsAt_ne _ _ _ _ hj

/-- When no event is observable at a height, HaveSidechainEvents reports
false and leaves the state untouched. -/
theorem have_events_false_of_none (st : CCoinsViewCache) (h : Int)
    (hev : st.eventsAt h = none) : st.HaveSidechainEvents h = (false, st) := by
  unfold CCoinsViewCache.eventsAt at hev
  unfold CCoinsViewCache.HaveSidechainEvents CCoinsViewCache.FetchSidechainEvents
  cases hm : mlook st.cacheSidechainEvents h with
  | some e =>
    rw [hm] at hev
    by_cases hf : e.flag = ScCacheFlag.ERASED
    · simp [hf]
    · simp [if_neg hf] at hev
  | none =>
    simp only [hm] at hev
    simp only [hm, hev]

/-! ### Record-level certificate update facts -/

/-- The record-level round trip: a successful update followed by the
restore driven by its own undo payload reproduces the starting record. -/
theorem updateScRecord_restore (sc : CSidechain) (cert : CScCertificate)
    (u : CSidechainUndoData) (sc3 : CSidechain) (u2 : CSidechainUndoData)
    (h : updateScRecord sc cert u = some (sc3, u2)) :
    restoreScRecord sc3 cert u2 = some sc := by
  unfold updateScRecord at h
  cases heh : epochHandle sc cert u with
  | none =>
    rw [heh] at h
    exact absurd h (by simp)
  | some p =>
    obtain ⟨sc1, u1⟩ := p
    rw [heh] at h
    simp only [] at h
    by_cases hb : sc1.balance < cert.bwtTotalAmount
    · rw [if_pos hb] at h
      exact absurd h (by simp)
    · rw [if_neg hb] at h
      simp only [Option.some.injEq, Prod.mk.injEq] at h
      obtain ⟨h3, h4⟩ := h
      subst h3 h4
      unfold epochHandle at heh
      by_cases hcross : cert.epochNumber = sc.lastTopQualityCertReferencedEpoch + 1
      · rw [if_pos hcross] at heh
        simp only [Option.some.injEq, Prod.mk.injEq] at heh
        obtain ⟨h5, h6⟩ := heh
        subst h5 h6
        unfold restoreScRecord
        simp only [hcross]
        obtain ⟨c1, c2, c3, c4, c5, c6, c7, c8, c9, c10, c11, c12, c13, c14, c15, c16, c17⟩ := sc
        simp
      · rw [if_neg hcross] at heh
        by_cases hsame : cert.epochNumber = sc.lastTopQualityCertReferencedEpoch
        · rw [if_pos hsame] at heh
          by_cases hq : cert.quality ≤ sc.lastTopQualityCertQuality
          · rw [if_pos hq] at heh
            exact absurd heh (by simp)
          · rw [if_neg hq] at heh
            simp only [Option.some.injEq, Prod.mk.injEq] at heh
            obtain ⟨h5, h6⟩ := heh
            subst h5 h6
            unfold restoreScRecord
            obtain ⟨c1, c2, c3, c4, c5, c6, c7, c8, c9, c10, c11, c12, c13, c14, c15, c16, c17⟩ := sc
            simp only [hsame] at hq ⊢
            simp [hq]
        · rw [if_neg hsame] at heh
          exact absurd heh (by simp)

/-- The balance step of updateScRecord: after the epoch handling, failure
exactly when the debit would go negative, and otherwise the bwt total is
subtracted. -/
theorem updateScRecord_balance (sc : CSidechain) (cert : CScCertificate)
    (u : CSidechainUndoData) (sc1 : CSidechain) (u1 : CSidechainUndoData)
    (heh : epochHandle sc cert u = some (sc1, u1)) :
    (sc1.balance < cert.bwtTotalAmount → updateScRecord sc cert u = none) ∧
    (cert.bwtTotalAmount ≤ sc1.balance →
      ∃ sc3 u2, updateScRecord sc cert u = some (sc3, u2) ∧
        sc3.balance = sc1.balance - cert.bwtTotalAmount) := by
  constructor
  · intro hb
    unfold updateScRecord
    rw [heh]
    simp only []
    rw [if_pos hb]
  · intro hb
    unfold updateScRecord
    rw [heh]
    simp only []
    rw [if_neg (not_lt.mpr hb)]
    exact ⟨_, _, rfl, rfl⟩

/-! ### Serialization lemmas -/

theorem readTxEntries_append (v : List Nat) (s : List UndoStreamItem) :
    readTxEntries v.length (v.map UndoStreamItem.txu ++ s) = some (v, s) := by
  induction v with
  | nil => rfl
  | cons x t ih =>
    simp [readTxEntries, ih]

theorem readTxEntries_length (n : Nat) (s : List UndoStreamItem) (v : List Nat)
    (s2 : List UndoStreamItem) (h : readTxEntries n s = some (v, s2)) :
    v.length = n := by
  induction n generalizing s v s2 with
  | zero =>
    unfold readTxEntries at h
    simp only [Option.some.injEq, Prod.mk.injEq] at h
    rw [← h.1]
    rfl
  | succ m ih =>
    match s with
    | [] => exact absurd h (by simp [readTxEntries])
    | UndoStreamItem.csize k :: s1 => exact absurd h (by simp [readTxEntries])
    | UndoStreamItem.treeRoot r :: s1 => exact absurd h (by simp [readTxEntries])
    | UndoStreamItem.scmap m2 :: s1 => exact absurd h (by simp [readTxEntries])
    | UndoStreamItem.txu t :: s1 =>
      unfold readTxEntries at h
      cases h2 : readTxEntries m s1 with
      | none => rw [h2] at h; exact absurd h (by simp)
      | some p =>
        obtain ⟨v1, s3⟩ := p
        rw [h2] at h
        simp only [Option.some.injEq, Prod.mk.injEq] at h
        rw [← h.1]
        simp [ih s1 v1 s3 h2]

/-! ### Anchor lemmas -/

theorem getBestAnchor_spec (st : CCoinsViewCache) :
    ((st.GetBestAnchor).2.GetBestAnchor).1 = (st.GetBestAnchor).1 ∧
    (st.GetBestAnchor).2.cacheAnchors = st.cacheAnchors ∧
    (st.GetBestAnchor).2.cacheCoins = st.cacheCoins ∧
    (st.GetBestAnchor).2.cacheSidechains = st.cacheSidechains ∧
    (st.GetBestAnchor).2.cacheSidechainEvents = st.cacheSidechainEvents ∧
    (st.GetBestAnchor).2.cacheNullifiers = st.cacheNullifiers := by
  unfold CCoinsViewCache.GetBestAnchor
  by_cases h : st.hashAnchor = 0
  · rw [if_pos h]
    by_cases h2 : st.base.getBestAnchor = 0
    · simp [h2]
    · simp [h2]
  · rw [if_neg h]
    simp [h]

/-! ## Theorems settling the documented properties -/

/-- C10: for every coin entry on which Cleanup has run, the entry is pruned
exactly when its outputs vector is empty; consequently HaveCoins, which
tests outputs-vector emptiness rather than prunedness, returns true exactly
when a non-pruned entry for the key is reachable through the cache (stated
for caches whose entries, in the cache map and in the base, are
Cleanup-invariant, as every entry the code stores is). -/
theorem cleanup_pruned_empty_and_haveCoins :
    (∀ c : CCoins, (c.Cleanup.IsPruned = true ↔ c.Cleanup.vout = [])) ∧
    (∀ (st : CCoinsViewCache) (txid : Nat),
      (∀ k e, mlook st.cacheCoins k = some e → e.coins.Cleanup = e.coins) →
      (∀ k c, st.base.getCoins k = some c → c.Cleanup = c) →
      ((st.HaveCoins txid).1 = true ↔
        ∃ c, st.coinsAt txid = some c ∧ c.IsPruned = false)) := by
  have key : ∀ c : CCoins, c.Cleanup = c → ((!c.vout.isEmpty) = true ↔ c.IsPruned = false) := by
    intro c hc
    have h2 := cleanup_isPruned_iff_vout_nil c
    rw [hc] at h2
    constructor
    · intro h3
      cases hp : c.IsPruned with
      | false => rfl
      | true =>
        rw [h2.mp hp] at h3
        simp at h3
    · intro h3
      cases hne : c.vout.isEmpty with
      | false => rfl
      | true =>
        rw [List.isEmpty_iff] at hne
        have : c.IsPruned = true := h2.mpr hne
        rw [this] at h3
        simp at h3
  refine ⟨cleanup_isPruned_iff_vout_nil, ?_⟩
  intro st txid hclean hcleanb
  unfold CCoinsViewCache.HaveCoins CCoinsViewCache.FetchCoins CCoinsViewCache.coinsAt
  cases hm : mlook st.cacheCoins txid with
  | some e =>
    simp only [hm]
    have h2 := key e.coins (hclean txid e hm)
    constructor
    · intro h3
      exact ⟨e.coins, rfl, h2.mp h3⟩
    · intro h3
      obtain ⟨c, hc1, hc2⟩ := h3
      injection hc1 with hc1
      subst hc1
      exact h2.mpr hc2
  | none =>
    cases hb : st.base.getCoins txid with
    | some c =>
      simp only [hm, hb]
      have h2 := key c (hcleanb txid c hb)
      constructor
      · intro h3
        exact ⟨c, rfl, h2.mp h3⟩
      · intro h3
        obtain ⟨c2, hc1, hc2⟩ := h3
        injection hc1 with hc1
        subst hc1
        exact h2.mpr hc2
    | none =>
      simp [hm, hb]

/-- Witness for C10 at a concrete cache: one clean non-pruned entry. -/
theorem cleanup_pruned_empty_and_haveCoins_witness :
    (stCoinFix.HaveCoins 9).1 = true ↔
      ∃ c, stCoinFix.coinsAt 9 = some c ∧ c.IsPruned = false := by
  apply cleanup_pruned_empty_and_haveCoins.2 stCoinFix 9
  · intro k e h
    simp only [stCoinFix, emptyCache, mlook] at h
    by_cases hk : (9 : Nat) = k
    · rw [if_pos hk] at h
      injection h with h
      rw [← h]
      decide
    · rw [if_neg hk] at h
      exact absurd h (by simp)
  · intro k c h
    simp [stCoinFix, emptyCache, emptyBase] at h

/-- C8: the 16-bit marker 0xFFFF in place of the leading compact size
selects the new block-undo format (sidechain data is read and the object is
flagged as carrying sidechain attributes); any other leading compact size
is the count of legacy TxUndo entries and no sidechain undo data is read;
the marker exceeds the largest feasible transaction count in a block; and
serializing a new-format undo then deserializing it recovers contents and
format flag. -/
theorem blockundo_marker_format :
    blockUndoMarker > MAX_BLOCK_SIZE / MIN_TX_SIZE ∧
    (∀ u : CBlockUndoSer, u.includesSidechainAttributes = true →
      unserializeBlockUndo (serializeBlockUndo u) = some (u, [])) ∧
    (∀ rest out s2,
      unserializeBlockUndo (UndoStreamItem.csize blockUndoMarker :: rest) = some (out, s2) →
      out.includesSidechainAttributes = true) ∧
    (∀ n rest out s2, n ≠ blockUndoMarker →
      unserializeBlockUndo (UndoStreamItem.csize n :: rest) = some (out, s2) →
      out.includesSidechainAttributes = false ∧ out.vtxundo.length = n ∧
      out.scUndoDatabyScId = [] ∧
      readTxEntries n rest = some (out.vtxundo, UndoStreamItem.treeRoot out.old_tree_root :: s2)) := by
  refine ⟨by decide, ?_, ?_, ?_⟩
  · intro u hu
    obtain ⟨f1, f2, f3, f4⟩ := u
    simp only [] at hu
    subst hu
    simp [serializeBlockUndo, serializeVtxundo, unserializeBlockUndo, readTxEntries_append]
  · intro rest out s2 h
    simp only [unserializeBlockUndo, if_pos rfl] at h
    match rest with
    | [] => exact absurd h (by simp)
    | UndoStreamItem.txu t :: s1 => exact absurd h (by simp)
    | UndoStreamItem.treeRoot r :: s1 => exact absurd h (by simp)
    | UndoStreamItem.scmap m :: s1 => exact absurd h (by simp)
    | UndoStreamItem.csize m :: s1 =>
      simp only [] at h
      cases h2 : readTxEntries m s1 with
      | none => rw [h2] at h; exact absurd h (by simp)
      | some p =>
        obtain ⟨v, s3⟩ := p
        rw [h2] at h
        match s3 with
        | [] => exact absurd h (by simp)
        | UndoStreamItem.csize k :: s4 => exact absurd h (by simp)
        | UndoStreamItem.txu t :: s4 => exact absurd h (by simp)
        | UndoStreamItem.scmap sm :: s4 => exact absurd h (by simp)
        | UndoStreamItem.treeRoot r :: s4 =>
          match s4 with
          | [] => exact absurd h (by simp)
          | UndoStreamItem.csize k :: s5 => exact absurd h (by simp)
          | UndoStreamItem.txu t :: s5 => exact absurd h (by simp)
          | UndoStreamItem.treeRoot r2 :: s5 => exact absurd h (by simp)
          | UndoStreamItem.scmap sm :: s5 =>
            simp only [if_true, Option.some.injEq, Prod.mk.injEq] at h
            rw [← h.1]
  · intro n rest out s2 hn h
    simp only [unserializeBlockUndo, if_neg hn] at h
    cases h2 : readTxEntries n rest with
    | none => rw [h2] at h; exact absurd h (by simp)
    | some p =>
      obtain ⟨v, s3⟩ := p
      rw [h2] at h
      match s3 with
      | [] => exact absurd h (by simp)
      | UndoStreamItem.csize k :: s4 => exact absurd h (by simp)
      | UndoStreamItem.txu t :: s4 => exact absurd h (by simp)
      | UndoStreamItem.scmap sm :: s4 => exact absurd h (by simp)
      | UndoStreamItem.treeRoot r :: s4 =>
        simp only [Option.some.injEq, Prod.mk.injEq] at h
        obtain ⟨ho, hs⟩ := h
        subst hs
        rw [← ho]
        refine ⟨rfl, readTxEntries_length n rest v _ h2, rfl, ?_⟩
        simp [h2]

/-- Witness for C8 at a concrete new-format undo. -/
theorem blockundo_marker_format_witness :
    unserializeBlockUndo (serializeBlockUndo buSerFix) = some (buSerFix, []) :=
  blockundo_marker_format.2.1 buSerFix rfl

/-- C6: PushAnchor with a tree whose root already is the best anchor leaves
the anchors map and every other cache map untouched and the best anchor
unchanged; PopAnchor of the current best anchor likewise succeeds without
changing them. -/
theorem anchor_noop :
    ∀ (st : CCoinsViewCache) (t : ZCTree),
      t.root = (st.GetBestAnchor).1 →
      ((st.PushAnchor t).cacheAnchors = st.cacheAnchors ∧
       (st.PushAnchor t).cacheCoins = st.cacheCoins ∧
       (st.PushAnchor t).cacheSidechains = st.cacheSidechains ∧
       (st.PushAnchor t).cacheSidechainEvents = st.cacheSidechainEvents ∧
       (st.PushAnchor t).cacheNullifiers = st.cacheNullifiers ∧
       ((st.PushAnchor t).GetBestAnchor).1 = (st.GetBestAnchor).1) ∧
      (∃ st2, st.PopAnchor (st.GetBestAnchor).1 = some st2 ∧
        st2.cacheAnchors = st.cacheAnchors ∧
        st2.cacheCoins = st.cacheCoins ∧
        st2.cacheSidechains = st.cacheSidechains ∧
        st2.cacheSidechainEvents = st.cacheSidechainEvents ∧
        st2.cacheNullifiers = st.cacheNullifiers ∧
        (st2.GetBestAnchor).1 = (st.GetBestAnchor).1) := by
  intro st t h
  have hspec := getBestAnchor_spec st
  constructor
  · unfold CCoinsViewCache.PushAnchor
    rw [if_neg (by simp [h])]
    exact ⟨hspec.2.1, hspec.2.2.1, hspec.2.2.2.1, hspec.2.2.2.2.1, hspec.2.2.2.2.2, hspec.1⟩
  · unfold CCoinsViewCache.PopAnchor
    rw [if_neg (by simp)]
    exact ⟨_, rfl, hspec.2.1, hspec.2.2.1, hspec.2.2.2.1, hspec.2.2.2.2.1, hspec.2.2.2.2.2, hspec.1⟩

/-- Witness for C6 at a concrete cache with best anchor 33. -/
theorem anchor_noop_witness :
    ((stAnchorFix.PushAnchor { root := 33, contents := 5 }).cacheAnchors = stAnchorFix.cacheAnchors ∧
     (stAnchorFix.PushAnchor { root := 33, contents := 5 }).cacheCoins = stAnchorFix.cacheCoins ∧
     (stAnchorFix.PushAnchor { root := 33, contents := 5 }).cacheSidechains = stAnchorFix.cacheSidechains ∧
     (stAnchorFix.PushAnchor { root := 33, contents := 5 }).cacheSidechainEvents = stAnchorFix.cacheSidechainEvents ∧
     (stAnchorFix.PushAnchor { root := 33, contents := 5 }).cacheNullifiers = stAnchorFix.cacheNullifiers ∧
     ((stAnchorFix.PushAnchor { root := 33, contents := 5 }).GetBestAnchor).1 = (stAnchorFix.GetBestAnchor).1) ∧
    (∃ st2, stAnchorFix.PopAnchor (stAnchorFix.GetBestAnchor).1 = some st2 ∧
      st2.cacheAnchors = stAnchorFix.cacheAnchors ∧
      st2.cacheCoins = stAnchorFix.cacheCoins ∧
      st2.cacheSidechains = stAnchorFix.cacheSidechains ∧
      st2.cacheSidechainEvents = stAnchorFix.cacheSidechainEvents ∧
      st2.cacheNullifiers = stAnchorFix.cacheNullifiers ∧
      (st2.GetBestAnchor).1 = (stAnchorFix.GetBestAnchor).1) :=
  anchor_noop stAnchorFix { root := 33, contents := 5 } (by decide)

/-- C7: a coin entry whose cache slot is FRESH after the modifier is
acquired and whose modification leaves it pruned is erased from the cache
map when the modifier drops. -/
theorem fresh_pruned_modifier_drop :
    ∀ (st : CCoinsViewCache) (txid : Nat) (cNew : CCoins) (e1 : CCoinsCacheEntry),
      mlook (st.ModifyCoinsAcquire txid).cacheCoins txid = some e1 →
      e1.fresh = true →
      cNew.IsPruned = true →
      mlook (((st.ModifyCoinsAcquire txid).setCoinsEntry txid
        { e1 with coins := cNew }).ModifierDrop txid).cacheCoins txid = none := by
  intro st txid cNew e1 hm hf hp
  unfold CCoinsViewCache.ModifierDrop
  have hm2 : mlook ((st.ModifyCoinsAcquire txid).setCoinsEntry txid
      { e1 with coins := cNew }).cacheCoins txid = some { e1 with coins := cNew } := by
    unfold CCoinsViewCache.setCoinsEntry
    exact mlook_mset_self _ _ _
  simp only [hm2]
  rw [if_pos (by simp [hf, cleanup_of_pruned cNew hp])]
  unfold CCoinsViewCache.setCoinsEntry
  exact mlook_merase_self _ _

/-- Witness for C7: overwriting the only output of a FRESH cache entry
with the cleared coins erases its slot on modifier drop. -/
theorem fresh_pruned_modifier_drop_witness :
    mlook (((stCoinFix.ModifyCoinsAcquire 9).setCoinsEntry 9
      { coinFixEntry with coins := CCoins.ClearedCoins, dirty := true }).ModifierDrop 9).cacheCoins 9 = none :=
  fresh_pruned_modifier_drop stCoinFix 9 CCoins.ClearedCoins
    { coinFixEntry with dirty := true } (by decide) (by decide) (by decide)

/-- C2 counterexample: the claim's final clause fails when the key is
absent in the receiving layer and the child entry is pruned - the code
drops the entry and installs nothing, while the clause promises an
overwritten slot. Concretely: empty parent, a DIRTY|FRESH pruned child at
key 0. -/
theorem batchwrite_spec_statement_false : ¬ batchWriteSpecStatement := by
  intro h
  have hstep : batchWriteCoinsStep [] 0
      { coins := CCoins.ClearedCoins, dirty := true, fresh := true } = some [] := by decide
  have h2 := h [] 0 { coins := CCoins.ClearedCoins, dirty := true, fresh := true } [] rfl hstep
  obtain ⟨r, hr, _⟩ := h2.2.2 (by simp [mlook]; decide) (by simp [mlook])
  simp [mlook] at hr

/-- C2 amended: for every child coin-map entry flagged DIRTY processed by
BatchWrite: key absent here and child not pruned -> the child is FRESH
(asserted; failure otherwise) and is installed DIRTY|FRESH; key absent
here and child pruned -> the receiving layer is left unchanged; key
present here, FRESH here, child pruned -> the slot is removed entirely;
key present here otherwise -> the payload is overwritten with the child
payload, DIRTY is set and this layer's FRESH flag is preserved. -/
theorem batchWriteCoinsStep_cases :
    ∀ (parent : List (Nat × CCoinsCacheEntry)) (key : Nat) (child : CCoinsCacheEntry)
      (result : List (Nat × CCoinsCacheEntry)),
      child.dirty = true →
      batchWriteCoinsStep parent key child = some result →
      (mlook parent key = none → child.coins.IsPruned = false →
        child.fresh = true ∧
        mlook result key = some { coins := child.coins, dirty := true, fresh := true }) ∧
      (mlook parent key = none → child.coins.IsPruned = true → result = parent) ∧
      (∀ pe, mlook parent key = some pe → pe.fresh = true → child.coins.IsPruned = true →
        mlook result key = none) ∧
      (∀ pe, mlook parent key = some pe → ¬(pe.fresh = true ∧ child.coins.IsPruned = true) →
        mlook result key = some { coins := child.coins, dirty := true, fresh := pe.fresh }) := by
  intro parent key child result hd hstep
  unfold batchWriteCoinsStep at hstep
  rw [if_pos hd] at hstep
  cases hm : mlook parent key with
  | none =>
    rw [hm] at hstep
    simp only [] at hstep
    refine ⟨?_, ?_, ?_, ?_⟩
    · intro _ hp
      rw [show (!child.coins.IsPruned) = true by simp [hp]] at hstep
      by_cases hf : child.fresh = true
      · rw [if_pos hf] at hstep
        injection hstep with hstep
        subst hstep
        exact ⟨hf, mlook_mset_self _ _ _⟩
      · rw [if_neg hf] at hstep
        exact absurd hstep (by simp)
    · intro _ hp
      rw [show (!child.coins.IsPruned) = false by simp [hp]] at hstep
      simp only [Bool.false_eq_true, if_false] at hstep
      injection hstep with hstep
      exact hstep.symm
    · intro pe hpe
      exact absurd hpe (by simp)
    · intro pe hpe
      exact absurd hpe (by simp)
  | some pe0 =>
    rw [hm] at hstep
    simp only [] at hstep
    refine ⟨?_, ?_, ?_, ?_⟩
    · intro hno
      exact absurd hno (by simp)
    · intro hno
      exact absurd hno (by simp)
    · intro pe hpe hf hp
      injection hpe with hpe
      subst hpe
      rw [if_pos (by simp [hf, hp])] at hstep
      injection hstep with hstep
      subst hstep
      exact mlook_merase_self _ _
    · intro pe hpe hnfp
      injection hpe with hpe
      subst hpe
      rw [if_neg (by
        intro hc
        simp only [Bool.and_eq_true] at hc
        exact hnfp ⟨hc.1, hc.2⟩)] at hstep
      injection hstep with hstep
      subst hstep
      exact mlook_mset_self _ _ _

/-- Witness for the amended C2 at a concrete present-key overwrite. -/
theorem batchWriteCoinsStep_cases_witness :
    mlook ((batchWriteCoinsStep [(9, coinFixEntry)] 9
      { coins := coinFixEntry.coins, dirty := true, fresh := false }).getD []) 9 =
      some { coins := coinFixEntry.coins, dirty := true, fresh := coinFixEntry.fresh } := by
  have h := (batchWriteCoinsStep_cases [(9, coinFixEntry)] 9
    { coins := coinFixEntry.coins, dirty := true, fresh := false }
    (mset [(9, coinFixEntry)] 9
      { coins := coinFixEntry.coins, dirty := true, fresh := coinFixEntry.fresh })
    rfl (by decide)).2.2.2 coinFixEntry (by decide) (by decide)
  rw [show (batchWriteCoinsStep [(9, coinFixEntry)] 9
      { coins := coinFixEntry.coins, dirty := true, fresh := false }).getD [] =
      mset [(9, coinFixEntry)] 9
        { coins := coinFixEntry.coins, dirty := true, fresh := coinFixEntry.fresh } by decide]
  exact h

theorem getScIds_fold_not_mem (l : List (Nat × CSidechainsCacheEntry)) (acc : List Nat)
    (scId : Nat) (hacc : scId ∉ acc) (hl : ∀ p ∈ l, p.1 ≠ scId) :
    scId ∉ l.foldl
      (fun acc p =>
        if p.2.flag = ScCacheFlag.ERASED then sErase acc p.1 else sInsert acc p.1) acc := by
  induction l generalizing acc with
  | nil => simpa using hacc
  | cons p t ih =>
    simp only [List.foldl_cons]
    apply ih
    · by_cases hf : p.2.flag = ScCacheFlag.ERASED
      · rw [if_pos hf]
        exact not_mem_sErase_of_not_mem _ _ _ hacc
      · rw [if_neg hf]
        intro hc
        have hne : scId ≠ p.1 := fun h2 => hl p (List.mem_cons_self _ _) h2.symm
        exact hacc ((mem_sInsert_of_ne _ _ _ hne).mp hc)
    · intro q hq
      exact hl q (List.mem_cons_of_mem _ hq)

theorem getScIds_erased_not_mem (l : List (Nat × CSidechainsCacheEntry)) (acc : List Nat)
    (scId : Nat) (e : CSidechainsCacheEntry)
    (hm : mlook l scId = some e) (hf : e.flag = ScCacheFlag.ERASED)
    (hnd : (l.map Prod.fst).Nodup) :
    scId ∉ l.foldl
      (fun acc p =>
        if p.2.flag = ScCacheFlag.ERASED then sErase acc p.1 else sInsert acc p.1) acc := by
  induction l generalizing acc with
  | nil => simp [mlook] at hm
  | cons p t ih =>
    obtain ⟨k0, e0⟩ := p
    simp only [List.map_cons, List.nodup_cons] at hnd
    simp only [mlook] at hm
    by_cases hk : k0 = scId
    · subst hk
      rw [if_pos rfl] at hm
      injection hm with hm
      subst hm
      simp only [List.foldl_cons]
      apply getScIds_fold_not_mem
      · rw [if_pos hf]
        exact not_mem_sErase_self _ _
      · intro q hq hq2
        exact hnd.1 (hq2 ▸ List.mem_map_of_mem Prod.fst hq)
    · rw [if_neg hk] at hm
      simp only [List.foldl_cons]
      exact ih _ hm hnd.2

/-- C9: an ERASED cache entry makes the read interface treat the id (or
event height) as absent: HaveSidechain and GetSidechain report false /
fill nothing, GetScIds excludes the id even when the base view reports it,
and HaveSidechainEvents / GetSidechainEvents report false. -/
theorem erased_entries_are_absent :
    (∀ (st : CCoinsViewCache) (scId : Nat) (e : CSidechainsCacheEntry),
      mlook st.cacheSidechains scId = some e → e.flag = ScCacheFlag.ERASED →
      (st.HaveSidechain scId).1 = false ∧ (st.GetSidechain scId).1 = none ∧
      ((st.cacheSidechains.map Prod.fst).Nodup → scId ∉ st.GetScIds)) ∧
    (∀ (st : CCoinsViewCache) (h : Int) (e : CSidechainEventsCacheEntry),
      mlook st.cacheSidechainEvents h = some e → e.flag = ScCacheFlag.ERASED →
      (st.HaveSidechainEvents h).1 = false ∧ (st.GetSidechainEvents h).1 = none) := by
  constructor
  · intro st scId e hm hf
    refine ⟨?_, ?_, ?_⟩
    · unfold CCoinsViewCache.HaveSidechain CCoinsViewCache.FetchSidechains
      rw [hm]
      simp [hf]
    · unfold CCoinsViewCache.GetSidechain CCoinsViewCache.FetchSidechains
      rw [hm]
      simp [hf]
    · intro hnd
      unfold CCoinsViewCache.GetScIds
      exact getScIds_erased_not_mem _ _ _ _ hm hf hnd
  · intro st h e hm hf
    constructor
    · unfold CCoinsViewCache.HaveSidechainEvents CCoinsViewCache.FetchSidechainEvents
      rw [hm]
      simp [hf]
    · unfold CCoinsViewCache.GetSidechainEvents CCoinsViewCache.FetchSidechainEvents
      rw [hm]
      simp [hf]

/-- Witness for C9 at a cache whose id 7 and event height 204 are ERASED
while the base still reports id 7. -/
theorem erased_entries_are_absent_witness :
    ((stErasedFix.HaveSidechain 7).1 = false ∧ (stErasedFix.GetSidechain 7).1 = none ∧
      7 ∉ stErasedFix.GetScIds) ∧
    ((stErasedFix.HaveSidechainEvents 204).1 = false ∧
      (stErasedFix.GetSidechainEvents 204).1 = none) := by
  constructor
  · have h := erased_entries_are_absent.1 stErasedFix 7
      { sidechain := scFix, flag := ScCacheFlag.ERASED } (by decide) rfl
    exact ⟨h.1, h.2.1, h.2.2 (by decide)⟩
  · exact erased_entries_are_absent.2 stErasedFix 204
      { scEvents := { maturingScs := [7], ceasingScs := [] }, flag := ScCacheFlag.ERASED }
      (by decide) rfl

/-- C3: once a certificate passed the epoch handling of UpdateSidechain,
its total backward-transfer amount is subtracted from the sidechain
balance, and when that subtraction would go negative the call instead
fails (returns false). -/
theorem update_cert_balance_check :
    ∀ (st : CCoinsViewCache) (cert : CScCertificate) (bu : CBlockUndoSc)
      (sc0 sc1 : CSidechain) (u1 : CSidechainUndoData),
      (bu.scUndoGet cert.scId).prevTopCommittedCertHash = 0 →
      st.scAt cert.scId = some sc0 →
      epochHandle sc0 cert (bu.scUndoGet cert.scId) = some (sc1, u1) →
      (sc1.balance < cert.bwtTotalAmount → st.UpdateSidechainCert cert bu = none) ∧
      (cert.bwtTotalAmount ≤ sc1.balance →
        ∃ st2 bu2 sc2, st.UpdateSidechainCert cert bu = some (st2, bu2) ∧
          st2.scAt cert.scId = some sc2 ∧
          sc2.balance = sc1.balance - cert.bwtTotalAmount) := by
  intro st cert bu sc0 sc1 u1 hprev hsc heh
  obtain ⟨st1, e, hhave, hm1, hflag, hesc, hmod, hframe, _, _, _⟩ :=
    have_modify_of_scAt st cert.scId sc0 hsc
  have hrec := updateScRecord_balance sc0 cert (bu.scUndoGet cert.scId) sc1 u1 heh
  constructor
  · intro hb
    unfold CCoinsViewCache.UpdateSidechainCert
    rw [if_neg (by simp [hprev])]
    simp only [hhave, hmod, hesc, hrec.1 hb]
  · intro hb
    obtain ⟨sc3, u2, hupd, hbal⟩ := hrec.2 hb
    refine ⟨st1.setScEntry cert.scId { sidechain := sc3, flag := ScCacheFlag.DIRTY },
            bu.scUndoSet cert.scId u2, sc3, ?_, ?_, hbal⟩
    · unfold CCoinsViewCache.UpdateSidechainCert
      rw [if_neg (by simp [hprev])]
      simp only [hhave, hmod, hesc, hupd]
    · rw [setScEntry_scAt_self]
      simp

/-- Witness for C3 at the same-epoch supersession S3 of the spec: balance
100 + 30 - 40 = 90. -/
theorem update_cert_balance_check_witness :
    ∃ st2 bu2 sc2, stFix.UpdateSidechainCert certFix buFix = some (st2, bu2) ∧
      st2.scAt 7 = some sc2 ∧
      sc2.balance = (130 : Int) - 40 :=
  (update_cert_balance_check stFix certFix buFix scFix
    { scFix with balance := 130 } (buFix.scUndoGet 7)
    (by decide) (by decide) (by decide)).2 (by decide)

/-- C1: when UpdateSidechain(cert, blockUndo) succeeds on a sidechain,
RestoreSidechain(cert, undo) applied immediately afterwards with the undo
slot the update wrote succeeds and brings every field of the sidechain
record back to the pre-update snapshot. -/
theorem update_restore_roundtrip :
    ∀ (st : CCoinsViewCache) (cert : CScCertificate) (bu : CBlockUndoSc)
      (st2 : CCoinsViewCache) (bu2 : CBlockUndoSc) (preSc : CSidechain),
      st.UpdateSidechainCert cert bu = some (st2, bu2) →
      st.scAt cert.scId = some preSc →
      ∃ st3, st2.RestoreSidechain cert (bu2.scUndoGet cert.scId) = some st3 ∧
        st3.scAt cert.scId = some preSc := by
  intro st cert bu st2 bu2 preSc hupd hsc
  obtain ⟨st1, e, hhave, hm1, hflag, hesc, hmod, hframe, _, _, _⟩ :=
    have_modify_of_scAt st cert.scId preSc hsc
  unfold CCoinsViewCache.UpdateSidechainCert at hupd
  by_cases hprev : (bu.scUndoGet cert.scId).prevTopCommittedCertHash ≠ 0
  · rw [if_pos hprev] at hupd
    exact absurd hupd (by simp)
  · rw [if_neg hprev] at hupd
    simp only [hhave, hmod, hesc] at hupd
    cases hrec : updateScRecord preSc cert (bu.scUndoGet cert.scId) with
    | none =>
      rw [hrec] at hupd
      exact absurd hupd (by simp)
    | some p =>
      obtain ⟨sc3, u2⟩ := p
      rw [hrec] at hupd
      simp only [Option.some.injEq, Prod.mk.injEq] at hupd
      obtain ⟨hst2, hbu2⟩ := hupd
      subst hst2
      subst hbu2
      have hu : (bu.scUndoSet cert.scId u2).scUndoGet cert.scId = u2 :=
        scUndoGet_set_self _ _ _
      have hres := updateScRecord_restore preSc cert (bu.scUndoGet cert.scId) sc3 u2 hrec
      have hsc3 : (st1.setScEntry cert.scId
          { sidechain := sc3, flag := ScCacheFlag.DIRTY }).scAt cert.scId = some sc3 := by
        rw [setScEntry_scAt_self]
        simp
      obtain ⟨st1b, e2, hhave2, hm2, hflag2, hesc2, hmod2, hframe2, _, _, _⟩ :=
        have_modify_of_scAt _ cert.scId sc3 hsc3
      unfold CCoinsViewCache.RestoreSidechain
      rw [hu]
      simp only [hhave2, hmod2, hesc2, hres]
      refine ⟨_, rfl, ?_⟩
      rw [setScEntry_scAt_self]
      simp

/-- Witness for C1 at the same-epoch supersession S3 of the spec. -/
theorem update_restore_roundtrip_witness :
    ∃ st3, ((stFix.UpdateSidechainCert certFix buFix).getD (emptyCache, buFix)).1.RestoreSidechain
        certFix (((stFix.UpdateSidechainCert certFix buFix).getD
          (emptyCache, buFix)).2.scUndoGet 7) = some st3 ∧
      st3.scAt 7 = some scFix := by
  have h := update_restore_roundtrip stFix certFix buFix
    ((stFix.UpdateSidechainCert certFix buFix).getD (emptyCache, buFix)).1
    ((stFix.UpdateSidechainCert certFix buFix).getD (emptyCache, buFix)).2
    scFix rfl (by decide)
  exact h

theorem accessSidechain_frame (st : CCoinsViewCache) (k : Nat) (sc : CSidechain)
    (h : (st.AccessSidechain k).1 = some sc) :
    (st.AccessSidechain k).2.cacheSidechainEvents = st.cacheSidechainEvents ∧
    (st.AccessSidechain k).2.base = st.base ∧
    (∀ j, (st.AccessSidechain k).2.eventsAt j = st.eventsAt j) := by
  unfold CCoinsViewCache.AccessSidechain CCoinsViewCache.FetchSidechains at h ⊢
  cases hm : mlook st.cacheSidechains k with
  | some e => simp [hm]
  | none =>
    cases hb : st.base.getSidechain k with
    | none =>
      rw [hm] at h
      rw [hb] at h
      exact absurd h (by simp)
    | some v =>
      simp only [hm, hb]
      exact ⟨rfl, rfl, fun j => rfl⟩

theorem modifySidechainEvents_frame (st : CCoinsViewCache) (h : Int) :
    mlook (st.ModifySidechainEvents h).2.cacheSidechainEvents h =
      some (st.ModifySidechainEvents h).1 ∧
    (∀ j, h ≠ j →
      mlook (st.ModifySidechainEvents h).2.cacheSidechainEvents j =
        mlook st.cacheSidechainEvents j) ∧
    (st.ModifySidechainEvents h).2.cacheSidechains = st.cacheSidechains ∧
    (st.ModifySidechainEvents h).2.base = st.base := by
  unfold CCoinsViewCache.ModifySidechainEvents CCoinsViewCache.setEventsEntry
  cases hm : mlook st.cacheSidechainEvents h with
  | some e => simp [hm]
  | none =>
    cases hb : st.base.getSidechainEvents h with
    | some v =>
      simp only [hm, hb]
      refine ⟨mlook_mset_self _ _ _, fun j hj => mlook_mset_ne _ _ _ _ hj, ?_, ?_⟩ <;> trivial
    | none =>
      simp only [hm, hb]
      refine ⟨mlook_mset_self _ _ _, fun j hj => mlook_mset_ne _ _ _ _ hj, ?_, ?_⟩ <;> trivial

/-- C5: ScheduleSidechainEvent(cert) with a ceasing event present at the
current ceasing height removes the sidechain id from that event's ceasing
set (marking the entry ERASED when the event empties, DIRTY otherwise)
and inserts the id into the ceasing set at the next ceasing height; when
the current ceasing event is absent but the next one is already there, it
returns success and leaves every observable event unchanged. -/
theorem schedule_cert_event :
    ∀ (st : CCoinsViewCache) (cert : CScCertificate) (sc : CSidechain),
      (st.AccessSidechain cert.scId).1 = some sc →
      0 < sc.withdrawalEpochLength →
      (∀ ev, st.eventsAt (curCeasingHeightOf sc cert) = some ev →
        ∃ st3, st.ScheduleSidechainEventCert cert = some st3 ∧
          (∃ e1, mlook st3.cacheSidechainEvents (curCeasingHeightOf sc cert) = some e1 ∧
            e1.scEvents.maturingScs = ev.maturingScs ∧
            e1.scEvents.ceasingScs = sErase ev.ceasingScs cert.scId ∧
            cert.scId ∉ e1.scEvents.ceasingScs ∧
            e1.flag =
              (if e1.scEvents.IsNull then ScCacheFlag.ERASED else ScCacheFlag.DIRTY)) ∧
          (∃ e2, mlook st3.cacheSidechainEvents (nextCeasingHeightOf sc cert) = some e2 ∧
            cert.scId ∈ e2.scEvents.ceasingScs)) ∧
      (st.eventsAt (curCeasingHeightOf sc cert) = none →
        ∀ evN, st.eventsAt (nextCeasingHeightOf sc cert) = some evN →
        ∃ st3, st.ScheduleSidechainEventCert cert = some st3 ∧
          ∀ j, st3.eventsAt j = st.eventsAt j) := by
  intro st cert sc hacc hlen
  obtain ⟨hafE, hafB, hafAt⟩ := accessSidechain_frame st cert.scId sc hacc
  have hne : curCeasingHeightOf sc cert ≠ nextCeasingHeightOf sc cert := by
    unfold nextCeasingHeightOf
    omega
  rcases hAp : st.AccessSidechain cert.scId with ⟨o, st1⟩
  have ho : o = some sc := by rw [hAp] at hacc; exact hacc
  subst ho
  have hat1 : ∀ j, st1.eventsAt j = st.eventsAt j := by
    intro j
    have h2 := hafAt j
    rw [hAp] at h2
    exact h2
  constructor
  · intro ev hev
    have hev1 : st1.eventsAt (curCeasingHeightOf sc cert) = some ev := by
      rw [hat1]
      exact hev
    obtain ⟨st2, eE, hh, hm1, hf1, hscE, hmodE, hfrE, hsideE, hcoinsE, hbaseE⟩ :=
      have_modify_of_eventsAt _ (curCeasingHeightOf sc cert) ev hev1
    unfold CCoinsViewCache.ScheduleSidechainEventCert
    simp only [hAp, hh, hmodE]
    refine Exists.intro _ ⟨rfl, ?_, ?_⟩
    · refine ⟨{ scEvents := certCeasingErase eE.scEvents cert.scId,
                flag := if !(certCeasingErase eE.scEvents cert.scId).IsNull
                  then ScCacheFlag.DIRTY else ScCacheFlag.ERASED }, ?_, ?_, ?_, ?_, ?_⟩
      · have hMF := modifySidechainEvents_frame
          (st2.setEventsEntry (curCeasingHeightOf sc cert)
            { scEvents := certCeasingErase eE.scEvents cert.scId,
              flag := if !(certCeasingErase eE.scEvents cert.scId).IsNull
                then ScCacheFlag.DIRTY else ScCacheFlag.ERASED })
          (nextCeasingHeightOf sc cert)
        unfold CCoinsViewCache.setEventsEntry at hMF ⊢
        rw [mlook_mset_ne _ _ _ _ (Ne.symm hne), hMF.2.1 _ (Ne.symm hne)]
        exact mlook_mset_self _ _ _
      · rw [show (certCeasingErase eE.scEvents cert.scId).maturingScs =
            eE.scEvents.maturingScs from rfl, hscE]
      · rw [show (certCeasingErase eE.scEvents cert.scId).ceasingScs =
            sErase eE.scEvents.ceasingScs cert.scId from rfl, hscE]
      · exact not_mem_sErase_self _ _
      · cases hnull : (certCeasingErase eE.scEvents cert.scId).IsNull with
        | true => simp [hnull]
        | false => simp [hnull]
    · unfold CCoinsViewCache.setEventsEntry
      exact ⟨_, mlook_mset_self _ _ _, mem_sInsert_self _ _⟩
  · intro hev evN hnext
    have hev1 : st1.eventsAt (curCeasingHeightOf sc cert) = none := by
      rw [hat1]
      exact hev
    have hH := have_events_false_of_none _ (curCeasingHeightOf sc cert) hev1
    have hnext1 : st1.eventsAt (nextCeasingHeightOf sc cert) = some evN := by
      rw [hat1]
      exact hnext
    obtain ⟨st2, eE, hh2, hm2, hf2, hscE2, hmodE2, hfrE2, hsideE2, hcoinsE2, hbaseE2⟩ :=
      have_modify_of_eventsAt _ (nextCeasingHeightOf sc cert) evN hnext1
    unfold CCoinsViewCache.ScheduleSidechainEventCert
    simp only [hAp, hH, hh2]
    refine ⟨st2, rfl, ?_⟩
    intro j
    rw [hfrE2 j, hat1 j]

/-- Witness for C5 at the S2 fixture: the ceasing event of sidechain 7
moves from height 212 to height 222. -/
theorem schedule_cert_event_witness :
    ∃ st3, stFix.ScheduleSidechainEventCert certFix = some st3 ∧
      (∃ e1, mlook st3.cacheSidechainEvents (curCeasingHeightOf scFix certFix) = some e1 ∧
        e1.scEvents.maturingScs =
          (CSidechainEvents.mk [] [7]).maturingScs ∧
        e1.scEvents.ceasingScs =
          sErase (CSidechainEvents.mk [] [7]).ceasingScs certFix.scId ∧
        certFix.scId ∉ e1.scEvents.ceasingScs ∧
        e1.flag = (if e1.scEvents.IsNull then ScCacheFlag.ERASED else ScCacheFlag.DIRTY)) ∧
      (∃ e2, mlook st3.cacheSidechainEvents (nextCeasingHeightOf scFix certFix) = some e2 ∧
        certFix.scId ∈ e2.scEvents.ceasingScs) :=
  (schedule_cert_event stFix certFix scFix (by decide) (by decide)).1
    (CSidechainEvents.mk [] [7]) (by decide)

/-! ### Frame lemmas for the event-handling proof -/

theorem scAt_congr (st2 st1 : CCoinsViewCache) (j : Nat)
    (h1 : mlook st2.cacheSidechains j = mlook st1.cacheSidechains j)
    (h2 : st2.base = st1.base) : st2.scAt j = st1.scAt j := by
  unfold CCoinsViewCache.scAt
  rw [h1, h2]

theorem haveSidechain_frame (st : CCoinsViewCache) (k j : Nat) (hne : k ≠ j) :
    mlook (st.HaveSidechain k).2.cacheSidechains j = mlook st.cacheSidechains j ∧
    (st.HaveSidechain k).2.base = st.base := by
  unfold CCoinsViewCache.HaveSidechain CCoinsViewCache.FetchSidechains
    CCoinsViewCache.setScEntry
  cases hm : mlook st.cacheSidechains k with
  | some e => simp [hm]
  | none =>
    cases hb : st.base.getSidechain k with
    | none => simp [hm, hb]
    | some v => simp [hm, hb, mlook_mset_ne _ _ _ _ hne]

theorem modifySidechain_frame (st : CCoinsViewCache) (k j : Nat) (hne : k ≠ j) :
    mlook (st.ModifySidechain k).2.cacheSidechains j = mlook st.cacheSidechains j ∧
    (st.ModifySidechain k).2.base = st.base := by
  unfold CCoinsViewCache.ModifySidechain CCoinsViewCache.setScEntry
  cases hm : mlook st.cacheSidechains k with
  | some e => simp [hm]
  | none =>
    cases hb : st.base.getSidechain k with
    | none => simp [hm, hb, mlook_mset_ne _ _ _ _ hne]
    | some v => simp [hm, hb, mlook_mset_ne _ _ _ _ hne]

theorem getSidechain_frame (st : CCoinsViewCache) (k j : Nat) (hne : k ≠ j) :
    mlook (st.GetSidechain k).2.cacheSidechains j = mlook st.cacheSidechains j ∧
    (st.GetSidechain k).2.base = st.base := by
  unfold CCoinsViewCache.GetSidechain CCoinsViewCache.FetchSidechains
    CCoinsViewCache.setScEntry
  cases hm : mlook st.cacheSidechains k with
  | some e =>
    by_cases hf : e.flag = ScCacheFlag.ERASED
    · simp [hm, hf]
    · simp [hm, hf]
  | none =>
    cases hb : st.base.getSidechain k with
    | none => simp [hm, hb]
    | some v =>
      by_cases hf : (ScCacheFlag.DEFAULT : ScCacheFlag) = ScCacheFlag.ERASED
      · simp at hf
      · simp [hm, hb, mlook_mset_ne _ _ _ _ hne]

theorem fetchCoins_coin_frame (st : CCoinsViewCache) (k : Nat) :
    (st.FetchCoins k).2.cacheSidechains = st.cacheSidechains ∧
    (st.FetchCoins k).2.base = st.base := by
  unfold CCoinsViewCache.FetchCoins CCoinsViewCache.setCoinsEntry
  cases hm : mlook st.cacheCoins k with
  | some e => simp [hm]
  | none =>
    cases hb : st.base.getCoins k with
    | none => simp [hm, hb]
    | some c => simp [hm, hb]

theorem haveCoins_coin_frame (st : CCoinsViewCache) (k : Nat) :
    (st.HaveCoins k).2.cacheSidechains = st.cacheSidechains ∧
    (st.HaveCoins k).2.base = st.base := by
  unfold CCoinsViewCache.HaveCoins
  have h := fetchCoins_coin_frame st k
  cases hm : st.FetchCoins k with
  | mk o st1 =>
    rw [hm] at h
    cases o with
    | some e => exact h
    | none => exact h

theorem modifyCoinsAcquire_coin_frame (st : CCoinsViewCache) (k : Nat) :
    (st.ModifyCoinsAcquire k).cacheSidechains = st.cacheSidechains ∧
    (st.ModifyCoinsAcquire k).base = st.base := by
  unfold CCoinsViewCache.ModifyCoinsAcquire CCoinsViewCache.setCoinsEntry
  cases hm : mlook st.cacheCoins k with
  | some e => simp [hm]
  | none =>
    cases hb : st.base.getCoins k with
    | none => simp [hm, hb]
    | some c => simp [hm, hb]

theorem modifierDrop_coin_frame (st : CCoinsViewCache) (k : Nat) :
    (st.ModifierDrop k).cacheSidechains = st.cacheSidechains ∧
    (st.ModifierDrop k).base = st.base := by
  unfold CCoinsViewCache.ModifierDrop CCoinsViewCache.setCoinsEntry
  cases hm : mlook st.cacheCoins k with
  | none => simp [hm]
  | some e =>
    by_cases hc : (e.fresh && e.coins.Cleanup.IsPruned) = true
    · simp [hm, hc]
    · simp [hm, hc]

theorem nullify_frame (st : CCoinsViewCache) (certHash : Nat)
    (outs : List CTxInUndo) (res : CCoinsViewCache × List CTxInUndo)
    (hn : st.NullifyBackwardTransfers certHash outs = some res) :
    res.1.cacheSidechains = st.cacheSidechains ∧ res.1.base = st.base := by
  unfold CCoinsViewCache.NullifyBackwardTransfers at hn
  by_cases h0 : certHash = 0
  · rw [if_pos h0] at hn
    injection hn with hn
    rw [← hn]
    exact ⟨rfl, rfl⟩
  · rw [if_neg h0] at hn
    have hhc := haveCoins_coin_frame st certHash
    cases hH : st.HaveCoins certHash with
    | mk b st1 =>
      rw [hH] at hn hhc
      cases b with
      | false =>
        simp only [] at hn
        injection hn with hn
        rw [← hn]
        exact hhc
      | true =>
        simp only [] at hn
        have hma := modifyCoinsAcquire_coin_frame st1 certHash
        cases hm2 : mlook (st1.ModifyCoinsAcquire certHash).cacheCoins certHash with
        | none => rw [hm2] at hn; exact absurd hn (by simp)
        | some e =>
          rw [hm2] at hn
          simp only [] at hn
          by_cases hb : e.coins.nBwtMaturityHeight = 0
          · rw [if_pos hb] at hn
            exact absurd hn (by simp)
          · rw [if_neg hb] at hn
            by_cases hneg : e.coins.nFirstBwtPos < 0
            · rw [if_pos hneg] at hn
              injection hn with hn
              rw [← hn]
              have hd := modifierDrop_coin_frame (st1.ModifyCoinsAcquire certHash) certHash
              exact ⟨by rw [show ((st1.ModifyCoinsAcquire certHash).ModifierDrop certHash, outs).1 =
                        (st1.ModifyCoinsAcquire certHash).ModifierDrop certHash from rfl,
                      hd.1, hma.1, hhc.1],
                    by rw [show ((st1.ModifyCoinsAcquire certHash).ModifierDrop certHash, outs).1 =
                        (st1.ModifyCoinsAcquire certHash).ModifierDrop certHash from rfl,
                      hd.2, hma.2, hhc.2]⟩
            · rw [if_neg hneg] at hn
              injection hn with hn
              rw [← hn]
              have hd := modifierDrop_coin_frame
                ((st1.ModifyCoinsAcquire certHash).setCoinsEntry certHash
                  { e with coins :=
                      (nullifyLoop e.coins outs e.coins.nFirstBwtPos.toNat).1 }) certHash
              refine ⟨?_, ?_⟩
              · rw [show ((st1.ModifyCoinsAcquire certHash).setCoinsEntry certHash
                      { e with coins :=
                        (nullifyLoop e.coins outs e.coins.nFirstBwtPos.toNat).1 }).cacheSidechains =
                    (st1.ModifyCoinsAcquire certHash).cacheSidechains from rfl] at hd
                rw [hd.1, hma.1, hhc.1]
              · rw [show ((st1.ModifyCoinsAcquire certHash).setCoinsEntry certHash
                      { e with coins :=
                        (nullifyLoop e.coins outs e.coins.nFirstBwtPos.toNat).1 }).base =
                    (st1.ModifyCoinsAcquire certHash).base from rfl] at hd
                rw [hd.2, hma.2, hhc.2]

theorem setScEntry_mlook_self (st : CCoinsViewCache) (k : Nat)
    (e : CSidechainsCacheEntry) :
    mlook (st.setScEntry k e).cacheSidechains k = some e :=
  mlook_mset_self _ _ _

theorem setScEntry_mlook_ne (st : CCoinsViewCache) (k j : Nat)
    (e : CSidechainsCacheEntry) (hne : k ≠ j) :
    mlook (st.setScEntry k e).cacheSidechains j = mlook st.cacheSidechains j :=
  mlook_mset_ne _ _ _ _ hne

theorem setScEntry_base (st : CCoinsViewCache) (k : Nat) (e : CSidechainsCacheEntry) :
    (st.setScEntry k e).base = st.base := rfl

theorem setEventsEntry_mlook_self (st : CCoinsViewCache) (h : Int)
    (e : CSidechainEventsCacheEntry) :
    mlook (st.setEventsEntry h e).cacheSidechainEvents h = some e :=
  mlook_mset_self _ _ _

theorem setEventsEntry_sidechains (st : CCoinsViewCache) (h : Int)
    (e : CSidechainEventsCacheEntry) :
    (st.setEventsEntry h e).cacheSidechains = st.cacheSidechains := rfl

/-- A maturing iteration at one id leaves any other id's sidechain slot,
the base view and the other id's undo slot untouched. -/
theorem matureOne_frame (height : Int) (acc acc2 : CCoinsViewCache × CBlockUndoSc)
    (k j : Nat) (hne : k ≠ j) (h : matureOne height acc k = some acc2) :
    mlook acc2.1.cacheSidechains j = mlook acc.1.cacheSidechains j ∧
    acc2.1.base = acc.1.base ∧ acc2.2.scUndoGet j = acc.2.scUndoGet j := by
  unfold matureOne at h
  have hhf := haveSidechain_frame acc.1 k j hne
  cases hH : acc.1.HaveSidechain k with
  | mk b st1 =>
    rw [hH] at h hhf
    cases b with
    | false =>
      simp only [] at h
      exact absurd h (by simp)
    | true =>
      simp only [] at h
      have hmf := modifySidechain_frame st1 k j hne
      cases hM : st1.ModifySidechain k with
      | mk e st2 =>
        rw [hM] at h hmf
        simp only [] at h
        cases hA : mlook e.sidechain.mImmatureAmounts height with
        | none =>
          rw [hA] at h
          exact absurd h (by simp)
        | some amount =>
          rw [hA] at h
          simp only [] at h
          injection h with h
          rw [← h]
          exact ⟨(setScEntry_mlook_ne st2 k j _ hne).trans (hmf.1.trans hhf.1),
                 (setScEntry_base st2 k _).trans (hmf.2.trans hhf.2),
                 scUndoGet_set_ne acc.2 k j _ hne⟩

/-- The maturing loop over a list avoiding an id leaves that id's sidechain
slot, the base view and that id's undo slot untouched. -/
theorem matureLoop_frame (height : Int) (scId : Nat) (l : List Nat) :
    ∀ acc acc2, scId ∉ l → matureLoop height l acc = some acc2 →
      mlook acc2.1.cacheSidechains scId = mlook acc.1.cacheSidechains scId ∧
      acc2.1.base = acc.1.base ∧ acc2.2.scUndoGet scId = acc.2.scUndoGet scId := by
  induction l with
  | nil =>
    intro acc acc2 _ h
    simp only [matureLoop] at h
    injection h with h
    rw [← h]
    exact ⟨rfl, rfl, rfl⟩
  | cons k rest ih =>
    intro acc acc2 hnm h
    have hk : k ≠ scId := by
      intro he
      exact hnm (by rw [← he]; exact List.mem_cons_self k rest)
    have hrest : scId ∉ rest := fun hm => hnm (List.mem_cons_of_mem _ hm)
    simp only [matureLoop] at h
    cases hc : matureOne height acc k with
    | none =>
      rw [hc] at h
      exact absurd h (by simp)
    | some accM =>
      rw [hc] at h
      simp only [] at h
      have h1 := matureOne_frame height acc accM k scId hk hc
      have h2 := ih accM acc2 hrest h
      exact ⟨h2.1.trans h1.1, h2.2.1.trans h1.2.1, h2.2.2.trans h1.2.2⟩

/-- Splitting the maturing loop over an appended list. -/
theorem matureLoop_append (height : Int) (l1 l2 : List Nat)
    (acc : CCoinsViewCache × CBlockUndoSc) :
    matureLoop height (l1 ++ l2) acc =
      match matureLoop height l1 acc with
      | none => none
      | some acc1 => matureLoop height l2 acc1 := by
  induction l1 generalizing acc with
  | nil => simp [matureLoop]
  | cons k rest ih =>
    simp only [List.cons_append, matureLoop]
    cases hc : matureOne height acc k with
    | none => rfl
    | some accM =>
      simp only []
      exact ih accM

/-- The matured invariant only looks at the id's sidechain slot and undo
slot, so it transports along states agreeing there. -/
theorem maturedInv_congr (scId : Nat) (height : Int) (B a : Int)
    (acc acc2 : CCoinsViewCache × CBlockUndoSc)
    (h1 : mlook acc2.1.cacheSidechains scId = mlook acc.1.cacheSidechains scId)
    (h2 : acc2.2.scUndoGet scId = acc.2.scUndoGet scId)
    (hinv : maturedInv scId height B a acc) : maturedInv scId height B a acc2 := by
  unfold maturedInv at hinv ⊢
  obtain ⟨⟨e, hme, hfl, hbal, himm⟩, hamt, hbit⟩ := hinv
  exact ⟨⟨e, h1.trans hme, hfl, hbal, himm⟩,
         (congrArg CSidechainUndoData.appliedMaturedAmount h2).trans hamt,
         (congrArg CSidechainUndoData.contentMaturedAmounts h2).trans hbit⟩

/-- The maturing iteration at an id whose record is observable with an
amount scheduled at this height succeeds and establishes the matured
invariant with the credited balance. -/
theorem matureOne_establish (acc : CCoinsViewCache × CBlockUndoSc) (scId : Nat)
    (height : Int) (sc0 : CSidechain) (a : Int)
    (hsc : acc.1.scAt scId = some sc0)
    (ham : mlook sc0.mImmatureAmounts height = some a) :
    ∃ acc2, matureOne height acc scId = some acc2 ∧
      maturedInv scId height (sc0.balance + a) a acc2 := by
  obtain ⟨st1, e, hH, hme, hfl, hesc, hMod, hAt, hEv, hCo, hBa⟩ :=
    have_modify_of_scAt acc.1 scId sc0 hsc
  unfold matureOne
  rw [hH]
  simp only []
  rw [hMod]
  simp only [hesc, ham]
  unfold maturedInv
  refine ⟨_, rfl, ⟨_, setScEntry_mlook_self _ _ _, ?_, ?_, ?_⟩, ?_, ?_⟩
  · exact fun hcon => ScCacheFlag.noConfusion hcon
  · rfl
  · exact mlook_merase_self _ _
  · rw [scUndoGet_set_self]
  · rw [scUndoGet_set_self]

/-- A ceasing iteration preserves the matured invariant: at another id it
does not touch the slot; at the same id it only flips the state to CEASED
and ORs the CEASED_CERT_DATA bit (and the ceased bwt list) into the undo
slot, neither of which the invariant reads. -/
theorem ceaseOne_preserves_inv (scId : Nat) (height : Int) (B a : Int)
    (acc acc2 : CCoinsViewCache × CBlockUndoSc) (k : Nat)
    (hinv : maturedInv scId height B a acc) (h : ceaseOne acc k = some acc2) :
    maturedInv scId height B a acc2 := by
  unfold maturedInv at hinv ⊢
  obtain ⟨⟨e, hme, hfl, hbal, himm⟩, hamt, hbit⟩ := hinv
  by_cases hk : k = scId
  · subst hk
    have hG : acc.1.GetSidechain k = (some e.sidechain, acc.1) := by
      unfold CCoinsViewCache.GetSidechain CCoinsViewCache.FetchSidechains
      rw [hme]
      simp only []
      rw [if_pos hfl]
    have hM : acc.1.ModifySidechain k = (e, acc.1) := by
      unfold CCoinsViewCache.ModifySidechain
      rw [hme]
    unfold ceaseOne at h
    rw [hG] at h
    simp only [] at h
    rw [hM] at h
    simp only [] at h
    by_cases hep : e.sidechain.lastTopQualityCertReferencedEpoch = EPOCH_NULL
    · rw [if_pos hep] at h
      by_cases hh0 : e.sidechain.lastTopQualityCertHash = 0
      · rw [if_pos hh0] at h
        injection h with h
        rw [← h]
        refine ⟨⟨_, setScEntry_mlook_self acc.1 k _, ?_, ?_, ?_⟩, ?_, ?_⟩
        · exact fun hcon => ScCacheFlag.noConfusion hcon
        · exact hbal
        · exact himm
        · exact (congrArg CSidechainUndoData.appliedMaturedAmount
            (scUndoGet_set_self _ _ _)).trans hamt
        · exact (congrArg CSidechainUndoData.contentMaturedAmounts
            (scUndoGet_set_self _ _ _)).trans hbit
      · rw [if_neg hh0] at h
        exact absurd h (by simp)
    · rw [if_neg hep] at h
      split at h
      · exact absurd h (by simp)
      · rename_i st3 outs heq
        have hnf := nullify_frame _ _ _ _ heq
        injection h with h
        rw [← h]
        refine ⟨⟨_, (congrArg (fun m => mlook m k) hnf.1).trans
            (setScEntry_mlook_self acc.1 k _), ?_, ?_, ?_⟩, ?_, ?_⟩
        · exact fun hcon => ScCacheFlag.noConfusion hcon
        · exact hbal
        · exact himm
        · exact (congrArg CSidechainUndoData.appliedMaturedAmount
            (scUndoGet_set_self _ _ _)).trans
            ((congrArg CSidechainUndoData.appliedMaturedAmount
              (scUndoGet_set_self _ _ _)).trans hamt)
        · exact (congrArg CSidechainUndoData.contentMaturedAmounts
            (scUndoGet_set_self _ _ _)).trans
            ((congrArg CSidechainUndoData.contentMaturedAmounts
              (scUndoGet_set_self _ _ _)).trans hbit)
  · unfold ceaseOne at h
    have hgf := getSidechain_frame acc.1 k scId hk
    cases hG : acc.1.GetSidechain k with
    | mk o st1 =>
      rw [hG] at h hgf
      cases o with
      | none =>
        simp only [] at h
        exact absurd h (by simp)
      | some sidechain =>
        simp only [] at h
        have hmf := modifySidechain_frame st1 k scId hk
        cases hM : st1.ModifySidechain k with
        | mk em st2 =>
          rw [hM] at h hmf
          simp only [] at h
          by_cases hep : sidechain.lastTopQualityCertReferencedEpoch = EPOCH_NULL
          · rw [if_pos hep] at h
            by_cases hh0 : sidechain.lastTopQualityCertHash = 0
            · rw [if_pos hh0] at h
              injection h with h
              rw [← h]
              refine ⟨⟨e, ?_, hfl, hbal, himm⟩, ?_, ?_⟩
              · exact (setScEntry_mlook_ne st2 k scId _ hk).trans
                  (hmf.1.trans (hgf.1.trans hme))
              · exact (congrArg CSidechainUndoData.appliedMaturedAmount
                  (scUndoGet_set_ne acc.2 k scId _ hk)).trans hamt
              · exact (congrArg CSidechainUndoData.contentMaturedAmounts
                  (scUndoGet_set_ne acc.2 k scId _ hk)).trans hbit
            · rw [if_neg hh0] at h
              exact absurd h (by simp)
          · rw [if_neg hep] at h
            split at h
            · exact absurd h (by simp)
            · rename_i st3 outs heq
              have hnf := nullify_frame _ _ _ _ heq
              injection h with h
              rw [← h]
              refine ⟨⟨e, ?_, hfl, hbal, himm⟩, ?_, ?_⟩
              · exact (congrArg (fun m => mlook m scId) hnf.1).trans
                  ((setScEntry_mlook_ne st2 k scId _ hk).trans
                    (hmf.1.trans (hgf.1.trans hme)))
              · exact (congrArg CSidechainUndoData.appliedMaturedAmount
                  (scUndoGet_set_ne _ k scId _ hk)).trans
                  ((congrArg CSidechainUndoData.appliedMaturedAmount
                    (scUndoGet_set_ne acc.2 k scId _ hk)).trans hamt)
              · exact (congrArg CSidechainUndoData.contentMaturedAmounts
                  (scUndoGet_set_ne _ k scId _ hk)).trans
                  ((congrArg CSidechainUndoData.contentMaturedAmounts
                    (scUndoGet_set_ne acc.2 k scId _ hk)).trans hbit)

/-- The ceasing loop preserves the matured invariant. -/
theorem ceaseLoop_preserves_inv (scId : Nat) (height : Int) (B a : Int)
    (l : List Nat) :
    ∀ acc acc2, maturedInv scId height B a acc → ceaseLoop l acc = some acc2 →
      maturedInv scId height B a acc2 := by
  induction l with
  | nil =>
    intro acc acc2 hinv h
    simp only [ceaseLoop] at h
    injection h with h
    rw [← h]
    exact hinv
  | cons k rest ih =>
    intro acc acc2 hinv h
    simp only [ceaseLoop] at h
    cases hc : ceaseOne acc k with
    | none =>
      rw [hc] at h
      exact absurd h (by simp)
    | some accM =>
      rw [hc] at h
      simp only [] at h
      exact ih accM acc2 (ceaseOne_preserves_inv scId height B a acc accM k hinv hc) h

/-- C4: for every height carrying a sidechain-events entry and every
sidechain id in the maturing set at that height, a successful
HandleSidechainEvents call adds the amount immature at that height to the
sidechain's balance, records the matured amount in the block undo with the
MATURED_AMOUNTS bit set, erases the height from the immature schedule, and
after processing marks the event entry at the height ERASED. -/
theorem handle_events_maturing (st : CCoinsViewCache) (height : Int)
    (blockUndo : CBlockUndoSc) (res : CCoinsViewCache × CBlockUndoSc)
    (ev : CSidechainEvents) (scId : Nat) (sc0 : CSidechain) (a : Int)
    (hrun : st.HandleSidechainEvents height blockUndo = some res)
    (hev : st.eventsAt height = some ev)
    (hnd : ev.maturingScs.Nodup)
    (hmem : scId ∈ ev.maturingScs)
    (hsc : st.scAt scId = some sc0)
    (ham : mlook sc0.mImmatureAmounts height = some a) :
    (∃ e, mlook res.1.cacheSidechains scId = some e ∧
      e.flag ≠ ScCacheFlag.ERASED ∧
      e.sidechain.balance = sc0.balance + a ∧
      mlook e.sidechain.mImmatureAmounts height = none) ∧
    (res.2.scUndoGet scId).appliedMaturedAmount = a ∧
    (res.2.scUndoGet scId).contentMaturedAmounts = true ∧
    (∃ e2, mlook res.1.cacheSidechainEvents height = some e2 ∧
      e2.flag = ScCacheFlag.ERASED) := by
  obtain ⟨st1, eE, hHE, hmeE, hflE, hsce, hModE, hAtE, hScE, hCoE, hBaE⟩ :=
    have_modify_of_eventsAt st height ev hev
  unfold CCoinsViewCache.HandleSidechainEvents at hrun
  rw [hHE] at hrun
  simp only [] at hrun
  have hGot : st1.GetSidechainEvents height = (some ev, st1) := by
    unfold CCoinsViewCache.GetSidechainEvents CCoinsViewCache.FetchSidechainEvents
    rw [hmeE]
    simp only []
    rw [if_pos hflE, hsce]
  rw [hGot] at hrun
  simp only [Option.getD_some] at hrun
  obtain ⟨l1, l2, hsplit⟩ := List.append_of_mem hmem
  rw [hsplit] at hrun hnd
  rw [List.nodup_append] at hnd
  obtain ⟨-, hndR, hdisj⟩ := hnd
  have hn1 : scId ∉ l1 := fun hm1 => hdisj hm1 (List.mem_cons_self scId l2)
  have hn2 : scId ∉ l2 := (List.nodup_cons.mp hndR).1
  rw [matureLoop_append] at hrun
  cases hL1 : matureLoop height l1 (st1, blockUndo) with
  | none =>
    rw [hL1] at hrun
    exact absurd hrun (by simp)
  | some accL1 =>
    rw [hL1] at hrun
    simp only [] at hrun
    simp only [matureLoop] at hrun
    have hf1 := matureLoop_frame height scId l1 (st1, blockUndo) accL1 hn1 hL1
    have hst1sc : st1.scAt scId = some sc0 := by
      rw [scAt_congr st1 st scId (by rw [hScE]) hBaE]
      exact hsc
    have hscL1 : accL1.1.scAt scId = some sc0 := by
      rw [scAt_congr accL1.1 st1 scId hf1.1 hf1.2.1]
      exact hst1sc
    obtain ⟨accM, hMat, hinvM⟩ := matureOne_establish accL1 scId height sc0 a hscL1 ham
    rw [hMat] at hrun
    simp only [] at hrun
    cases hL2 : matureLoop height l2 accM with
    | none =>
      rw [hL2] at hrun
      exact absurd hrun (by simp)
    | some acc1 =>
      rw [hL2] at hrun
      simp only [] at hrun
      have hf2 := matureLoop_frame height scId l2 accM acc1 hn2 hL2
      have hinv1 := maturedInv_congr scId height (sc0.balance + a) a accM acc1
        hf2.1 hf2.2.2 hinvM
      cases hCL : ceaseLoop ev.ceasingScs acc1 with
      | none =>
        rw [hCL] at hrun
        exact absurd hrun (by simp)
      | some acc2 =>
        rw [hCL] at hrun
        simp only [] at hrun
        have hinv2 := ceaseLoop_preserves_inv scId height (sc0.balance + a) a
          ev.ceasingScs acc1 acc2 hinv1 hCL
        unfold maturedInv at hinv2
        obtain ⟨⟨e, hme, hfl, hbal, himm⟩, hamt, hbit⟩ := hinv2
        have hMF := modifySidechainEvents_frame acc2.1 height
        injection hrun with hrun
        rw [← hrun]
        exact ⟨⟨e, (congrArg (fun m => mlook m scId) hMF.2.2.1).trans hme,
                hfl, hbal, himm⟩,
               hamt, hbit, ⟨_, setEventsEntry_mlook_self _ _ _, rfl⟩⟩

theorem handle_events_maturing_witness :
    ∃ p : CCoinsViewCache × CBlockUndoSc,
      stFix.HandleSidechainEvents 204 buFix = some p ∧
      ((∃ e, mlook p.1.cacheSidechains 7 = some e ∧
        e.flag ≠ ScCacheFlag.ERASED ∧
        e.sidechain.balance = scFix.balance + 40 ∧
        mlook e.sidechain.mImmatureAmounts 204 = none) ∧
      (p.2.scUndoGet 7).appliedMaturedAmount = 40 ∧
      (p.2.scUndoGet 7).contentMaturedAmounts = true ∧
      (∃ e2, mlook p.1.cacheSidechainEvents 204 = some e2 ∧
        e2.flag = ScCacheFlag.ERASED)) := by
  refine ⟨_, rfl, ?_⟩
  exact handle_events_maturing stFix 204 buFix _
    { maturingScs := [7], ceasingScs := [] } 7 scFix 40 rfl rfl
    (by decide) (by decide) rfl rfl

end ZenCoins
